import Mathlib

/-!
Verification of the MiGEMox pipeline core against its specification.

The development shallowly embeds the two source modules
`src/pipeline/simulation.py` and `migemox/pipeline/community_gem_builder.py`:

* metabolic networks become explicit record structures over id strings,
  association-list stoichiometries and rational bounds (the source's floats
  are modelled as rationals; none of the verified claims depends on
  floating-point rounding, only on which comparisons and formulas are used);
* Python string operations (`in`, `startswith`, `replace`) become executable
  functions on the underlying character lists;
* the solver (cobra `optimize` / `flux_variability_analysis`) is the external
  collaborator of the spec's section 6: functions that consume its results
  take the FVA outcome dictionaries as inputs;
* Python's dynamic tuple unpacking is modelled by lists over a value type, so
  that the arity behaviour of `return`/destructuring is preserved.

All definitions are executable, so concrete runs are evaluated inside proofs.
-/

namespace Migemox

/-! ### Python string primitives -/

/-- Boolean substring test on character lists: Python's `pat in s`. -/
def hasSub (pat : List Char) : List Char → Bool
  | [] => pat.isEmpty
  | c :: t => pat.isPrefixOf (c :: t) || hasSub pat t

/-- Python's `pat in s` on strings. -/
def sContains (s pat : String) : Bool := hasSub pat.data s.data

/-- Python's `s.startswith(pat)`. -/
def pyStartsWith (s pat : String) : Bool := pat.data.isPrefixOf s.data

/-- Fuelled core of Python's `str.replace`: replace non-overlapping occurrences
of `old` left to right. Fuel is spent one unit per consumed character, so
`s.length` fuel always suffices for a non-empty pattern. -/
def pyReplaceAux (old new : List Char) : Nat → List Char → List Char
  | _, [] => []
  | 0, s => s
  | f + 1, c :: t =>
    if old ≠ [] ∧ old.isPrefixOf (c :: t) then
      new ++ pyReplaceAux old new f (List.drop (old.length - 1) t)
    else
      c :: pyReplaceAux old new f t

/-- Python's `s.replace(old, new)`. Every call site in the two source modules
passes a non-empty `old`, for which this agrees with Python. -/
def pyReplace (s old new : String) : String :=
  ⟨pyReplaceAux old.data new.data s.data.length s.data⟩

theorem hasSub_iff_infix (pat s : List Char) : hasSub pat s = true ↔ pat <:+: s := by
  induction s with
  | nil =>
    simp only [hasSub, List.isEmpty_iff]
    constructor
    · rintro rfl
      exact List.infix_refl _
    · exact List.eq_nil_of_infix_nil
  | cons c t ih =>
    rw [hasSub, Bool.or_eq_true, List.isPrefixOf_iff_prefix, ih, List.infix_cons_iff]

theorem sContains_iff (s pat : String) : sContains s pat = true ↔ pat.data <:+: s.data :=
  hasSub_iff_infix _ _

/-- A string that starts with `m` contains `m` as a substring. -/
theorem sContains_of_data_append (m : String) (l : List Char) :
    sContains ⟨m.data ++ l⟩ m = true := by
  rw [sContains_iff]
  exact ⟨[], l, rfl⟩

/-! ### Simulation module: reactions with bounds, diet rows -/

/-- Reaction as the diet adapter sees it: id and bounds
(`_apply_dietary_constraints` touches nothing else). -/
structure SRxn where
  id : String
  lb : ℚ
  ub : ℚ
deriving DecidableEq

/-- Row of the adapted diet table: reaction id, lower bound, optional upper
bound (`pd.notnull` on the upper bound becomes `Option`). -/
structure DietRow where
  rxnId : String
  lb : ℚ
  ub : Option ℚ
deriving DecidableEq

/-- Lines 86-90 of `simulation.py`, one captured id: rename `rxn_id` to
`rxn_id.replace('EX_', 'Diet_EX_')` unless a reaction with the new id already
exists in the model. -/
def renameDietStep (rxns : List SRxn) (rid : String) : List SRxn :=
  let newId := pyReplace rid "EX_" "Diet_EX_"
  if rxns.any (fun r => r.id = newId) then rxns
  else rxns.map (fun r => if r.id = rid then { r with id := newId } else r)

/-- Lines 86-90 of `simulation.py`: capture the ids of reactions with `[d]` in
the id and an `EX_` prefix, then rename each in turn. -/
def renameDietRxns (rxns : List SRxn) : List SRxn :=
  let dietIds :=
    ((rxns.filter fun r => sContains r.id "[d]" && pyStartsWith r.id "EX_").map SRxn.id)
  dietIds.foldl renameDietStep rxns

/-- Lines 92-95 of `simulation.py`: set the lower bound of every reaction whose
id starts with `Diet_EX_` to zero. -/
def zeroDietLB (rxns : List SRxn) : List SRxn :=
  rxns.map fun r => if pyStartsWith r.id "Diet_EX_" then { r with lb := 0 } else r

/-- Lines 98-103 of `simulation.py`, one diet row: if the row's reaction id is
present in the model, overwrite that reaction's lower bound, and its upper
bound when the row has one. -/
def applyDietRow (rxns : List SRxn) (row : DietRow) : List SRxn :=
  if rxns.any (fun r => r.id = row.rxnId) then
    rxns.map fun r =>
      if r.id = row.rxnId then { r with lb := row.lb, ub := row.ub.getD r.ub } else r
  else rxns

/-- Lines 98-103 of `simulation.py`: apply the diet rows in table order. -/
def applyDietRows (diet : List DietRow) (rxns : List SRxn) : List SRxn :=
  diet.foldl applyDietRow rxns

/-- The whole of `_apply_dietary_constraints` (lines 84-106): rename, zero out
every `Diet_EX_` lower bound, then apply the diet table. -/
def applyDietaryConstraints (diet : List DietRow) (rxns : List SRxn) : List SRxn :=
  applyDietRows diet (zeroDietLB (renameDietRxns rxns))

/-- The per-reaction effect of the diet-row loop: fold the rows over one
reaction, each matching row overwriting the bounds. -/
def updRxn (diet : List DietRow) (r : SRxn) : SRxn :=
  diet.foldl
    (fun r row =>
      if r.id = row.rxnId then { r with lb := row.lb, ub := row.ub.getD r.ub } else r)
    r

theorem applyDietRow_eq_map (rxns : List SRxn) (row : DietRow) :
    applyDietRow rxns row =
      rxns.map fun r =>
        if r.id = row.rxnId then { r with lb := row.lb, ub := row.ub.getD r.ub } else r := by
  unfold applyDietRow
  split
  · rfl
  · next h =>
    rw [List.any_eq_true] at h
    push_neg at h
    have hmap : rxns.map
        (fun r =>
          if r.id = row.rxnId then { r with lb := row.lb, ub := row.ub.getD r.ub } else r) =
        rxns.map id := by
      refine List.map_congr_left fun r hr => ?_
      have hne := h r hr
      simp only [ne_eq, decide_eq_true_eq] at hne
      simp [hne]
    rw [hmap, List.map_id]

theorem applyDietRows_eq_map (diet : List DietRow) (rxns : List SRxn) :
    applyDietRows diet rxns = rxns.map (updRxn diet) := by
  induction diet generalizing rxns with
  | nil =>
    have h : updRxn ([] : List DietRow) = id := by funext r; rfl
    simp [applyDietRows, h]
  | cons row rest ih =>
    have h1 : applyDietRows (row :: rest) rxns = applyDietRows rest (applyDietRow rxns row) :=
      rfl
    rw [h1, ih, applyDietRow_eq_map, List.map_map]
    exact List.map_congr_left fun r _ => rfl

theorem updRxn_of_not_mem (diet : List DietRow) (r : SRxn)
    (h : ∀ row ∈ diet, row.rxnId ≠ r.id) : updRxn diet r = r := by
  induction diet with
  | nil => rfl
  | cons row rest ih =>
    have hne : ¬ r.id = row.rxnId := fun hc => h row (by simp) (hc.symm)
    rw [updRxn, List.foldl_cons, if_neg hne]
    exact ih fun q hq => h q (by simp [hq])

theorem updRxn_id_stable (diet : List DietRow) (r : SRxn) : (updRxn diet r).id = r.id := by
  induction diet generalizing r with
  | nil => rfl
  | cons row rest ih =>
    rw [updRxn, List.foldl_cons]
    split <;> exact ih _

theorem updRxn_of_mem (diet : List DietRow) (r : SRxn) (row : DietRow)
    (hnd : (diet.map DietRow.rxnId).Nodup) (hmem : row ∈ diet) (hid : row.rxnId = r.id) :
    updRxn diet r = { r with lb := row.lb, ub := row.ub.getD r.ub } := by
  induction diet generalizing r with
  | nil => cases hmem
  | cons q rest ih =>
    rw [List.map_cons, List.nodup_cons] at hnd
    rcases List.mem_cons.mp hmem with rfl | hrest
    · rw [updRxn, List.foldl_cons, if_pos hid.symm]
      refine updRxn_of_not_mem rest _ fun p hp hc => hnd.1 ?_
      have hpr : p.rxnId = row.rxnId := by
        simpa [hid] using hc
      exact hpr ▸ List.mem_map_of_mem DietRow.rxnId hp
    · have hne : ¬ r.id = q.rxnId := by
        intro hc
        refine hnd.1 ?_
        have : q.rxnId = row.rxnId := by rw [← hc, ← hid]
        exact this ▸ List.mem_map_of_mem DietRow.rxnId hrest
      rw [updRxn, List.foldl_cons, if_neg hne]
      exact ih r hnd.2 hrest hid

/-! ### Simulation module: FVA aggregation (`_analyze_metabolite_fluxes`) -/

/-- FVA outcome of the external solver: the four dictionaries of lines 174-175
of `simulation.py` (`minimum`/`maximum` columns of the diet and fecal runs). -/
structure FVAResult where
  minDiet : List (String × ℚ)
  maxDiet : List (String × ℚ)
  minFecal : List (String × ℚ)
  maxFecal : List (String × ℚ)
deriving DecidableEq

/-- Python's `d.get(k, 0)` on a dictionary represented as an association list. -/
def qGet (d : List (String × ℚ)) (k : String) : ℚ :=
  ((d.find? fun p => p.1 = k).map Prod.snd).getD 0

/-- Line 191 of `simulation.py`:
`rxn.replace('EX_', 'Diet_EX_').replace('[fe]', '[d]')`. -/
def dietVarOf (rxn : String) : String :=
  pyReplace (pyReplace rxn "EX_" "Diet_EX_") "[fe]" "[d]"

/-- Line 185 of `simulation.py`: the aggregation universe is the intersection
of the model's exchange-reaction ids with the `exchanges` argument. -/
def aggregationUniverse (fecalRxns exchanges : List String) : List String :=
  fecalRxns.filter fun r => exchanges.contains r

/-- Lines 189-199 of `simulation.py`, net production. Line 193 of the source
reads `max_flux_fecal.get(fecal_var, 0) == 0` under the sub-tolerance test: a
comparison whose result is discarded, so it changes no dictionary and nothing
is floored before this formula is evaluated. -/
def netProductionMap (univ : List String) (F : FVAResult) : List (String × ℚ) :=
  univ.map fun rxn => (rxn, |qGet F.minDiet (dietVarOf rxn) + qGet F.maxFecal rxn|)

/-- Lines 189-200 of `simulation.py`, net uptake. -/
def netUptakeMap (univ : List String) (F : FVAResult) : List (String × ℚ) :=
  univ.map fun rxn => (rxn, |qGet F.maxDiet (dietVarOf rxn) + qGet F.minFecal rxn|)

/-- Lines 197-201 of `simulation.py`, minimal net fecal excretion. -/
def minNetFecalExcretionMap (univ : List String) (F : FVAResult) : List (String × ℚ) :=
  univ.map fun rxn => (rxn, qGet F.minFecal rxn + qGet F.minDiet (dietVarOf rxn))

/-- Lines 202-207 of `simulation.py`: raw FVA values per exchanged metabolite,
in the order (min diet, max diet, min fecal, max fecal). -/
def rawFVAMap (univ : List String) (F : FVAResult) : List (String × (ℚ × ℚ × ℚ × ℚ)) :=
  univ.map fun rxn =>
    (rxn,
      (qGet F.minDiet (dietVarOf rxn), qGet F.maxDiet (dietVarOf rxn),
        qGet F.minFecal rxn, qGet F.maxFecal rxn))

theorem find?_map_pair {β : Type} (l : List String) (f : String → β) (r : String)
    (h : r ∈ l) :
    ((l.map fun x => (x, f x)).find? fun p => p.1 = r) = some (r, f r) := by
  induction l with
  | nil => cases h
  | cons a t ih =>
    rw [List.map_cons, List.find?_cons]
    by_cases har : a = r
    · subst har
      simp
    · have : (decide ((a, f a).1 = r)) = false := by simpa using har
      rw [this]
      exact ih ((List.mem_cons.mp h).resolve_left fun hc => har hc.symm)

theorem keys_map_pair {β : Type} (l : List String) (f : String → β) :
    (l.map fun x => (x, f x)).map Prod.fst = l := by
  rw [List.map_map]
  exact List.map_id l

/-! ### Simulation module: dynamic tuples, `simulate_single_sample`, collection -/

/-- Python values flowing through the simulation result tuples. -/
inductive PyVal where
  | pstr : String → PyVal
  | pmap : List (String × ℚ) → PyVal
  | praw : List (String × (ℚ × ℚ × ℚ × ℚ)) → PyVal
deriving DecidableEq

/-- The tuple returned by `_analyze_metabolite_fluxes` (line 210 of
`simulation.py`): four values. -/
def analyzeMetaboliteFluxes (fecalRxns exchanges : List String) (F : FVAResult) :
    List PyVal :=
  let univ := aggregationUniverse fecalRxns exchanges
  [PyVal.pmap (netProductionMap univ F), PyVal.pmap (netUptakeMap univ F),
    PyVal.pmap (minNetFecalExcretionMap univ F), PyVal.praw (rawFVAMap univ F)]

/-- Python's two-target tuple unpacking `a, b = t`. -/
def pyUnpack2 : List PyVal → Except String (PyVal × PyVal)
  | [a, b] => Except.ok (a, b)
  | l =>
    Except.error
      (if 2 < l.length then "ValueError: too many values to unpack"
       else "ValueError: not enough values to unpack")

/-- Python's five-target tuple unpacking `a, b, c, d, e = t`. -/
def pyUnpack5 : List PyVal → Except String (PyVal × PyVal × PyVal × PyVal × PyVal)
  | [a, b, c, d, e] => Except.ok (a, b, c, d, e)
  | l =>
    Except.error
      (if 5 < l.length then "ValueError: too many values to unpack"
       else "ValueError: not enough values to unpack")

/-- Steps 5 and later of `simulate_single_sample` (lines 76-82 of
`simulation.py`), taking the FVA outcome of the external solver as input: the
two-target unpacking of the `_analyze_metabolite_fluxes` result, and on
success the returned 3-tuple `(sample_name, net_production_samp,
net_uptake_samp)`; an exception is printed and re-raised. Model loading, diet
application, bound configuration and the optimize-and-save step (file system
and solver) precede this and are external collaborators. -/
def simulateSingleSample (sampleName : String) (fecalRxns exchanges : List String)
    (F : FVAResult) : Except String (List PyVal) :=
  match pyUnpack2 (analyzeMetaboliteFluxes fecalRxns exchanges F) with
  | Except.ok (p, u) => Except.ok [PyVal.pstr sampleName, p, u]
  | Except.error e => Except.error e

/-- Python dictionary assignment `d[k] = v` (insertion order preserved,
overwriting an existing key in place). -/
def dictSetP (d : List (PyVal × PyVal)) (k v : PyVal) : List (PyVal × PyVal) :=
  if d.any fun p => p.1 = k then d.map fun p => if p.1 = k then (k, v) else p
  else d ++ [(k, v)]

/-- State of the collecting loop of `simulate_microbiota_models`: the local
variable `sample_name` (unbound before the first successful unpacking) and the
four aggregate dictionaries. -/
structure CollectState where
  lastSampleName : Option PyVal
  netProduction : List (PyVal × PyVal)
  netUptake : List (PyVal × PyVal)
  minNetFecalExcretion : List (PyVal × PyVal)
  rawFVAResults : List (PyVal × PyVal)
deriving DecidableEq

/-- State before the collecting loop: no dictionary entries, `sample_name`
unbound. -/
def initialCollectState : CollectState :=
  { lastSampleName := none, netProduction := [], netUptake := [],
    minNetFecalExcretion := [], rawFVAResults := [] }

/-- The message of the uncaught exception raised inside the `except` block of
lines 269-272 when `sample_name` has never been assigned. -/
def sampleNameUnboundError : String := "NameError: name sample_name is not defined"

/-- The collecting loop of `simulate_microbiota_models` (lines 261-272 of
`simulation.py`) over the task outcomes in completion order. Each iteration
five-target-unpacks `future.result()` inside `try`; any exception reaches the
`except` block, which formats `sample_name` — the loop variable of the
previous successful iteration, or unbound (an uncaught `NameError`) if there
was none — and then continues with the next future. -/
def collectResults : List (Except String (List PyVal)) → CollectState →
    Except String CollectState
  | [], st => Except.ok st
  | o :: rest, st =>
    match o.bind pyUnpack5 with
    | Except.ok (name, p, u, m, raw) =>
      collectResults rest
        { lastSampleName := some name
          netProduction := dictSetP st.netProduction name p
          netUptake := dictSetP st.netUptake name u
          minNetFecalExcretion := dictSetP st.minNetFecalExcretion name m
          rawFVAResults := dictSetP st.rawFVAResults name raw }
    | Except.error _ =>
      match st.lastSampleName with
      | none => Except.error sampleNameUnboundError
      | some _ => collectResults rest st

/-- Line 236 of `simulation.py`: the fecal-side exchange universe, built from
the global extracellular metabolite list. -/
def buildExchanges (exMets : List String) : List String :=
  (exMets.filter fun m => m ≠ "biomass[e]").map fun m => "EX_" ++ pyReplace m "[e]" "[fe]"

/-! ### Claim C1 -/

/-- Claim C1: for every sample's FVA outcome and every exchanged metabolite in
the aggregation universe, net production is the absolute value of
`min_flux_diet[diet_var] + max_flux_fecal[fecal_var]` and net uptake the
absolute value of `max_flux_diet[diet_var] + min_flux_fecal[fecal_var]`,
where `diet_var` replaces `EX_` by `Diet_EX_` and `[fe]` by `[d]` in
`fecal_var`, and an FVA entry absent from either side counts as 0 (the
default of `qGet`). -/
theorem c1_net_flux_arithmetic (fecalRxns exchanges : List String) (F : FVAResult)
    (rxn : String) (h : rxn ∈ aggregationUniverse fecalRxns exchanges) :
    ((netProductionMap (aggregationUniverse fecalRxns exchanges) F).find?
        fun p => p.1 = rxn) =
      some (rxn,
        |qGet F.minDiet (pyReplace (pyReplace rxn "EX_" "Diet_EX_") "[fe]" "[d]") +
          qGet F.maxFecal rxn|) ∧
    ((netUptakeMap (aggregationUniverse fecalRxns exchanges) F).find?
        fun p => p.1 = rxn) =
      some (rxn,
        |qGet F.maxDiet (pyReplace (pyReplace rxn "EX_" "Diet_EX_") "[fe]" "[d]") +
          qGet F.minFecal rxn|) :=
  ⟨find?_map_pair _ _ _ h, find?_map_pair _ _ _ h⟩

/-- Witness for C1 at the spec's own example: fecal reaction `EX_ac[fe]`,
diet FVA minimum -5 on `Diet_EX_ac[d]`, fecal FVA maximum 2. -/
theorem c1_net_flux_arithmetic_witness :
    ((netProductionMap (aggregationUniverse ["EX_ac[fe]"] ["EX_ac[fe]"])
          { minDiet := [("Diet_EX_ac[d]", -5)], maxDiet := [("Diet_EX_ac[d]", 3)],
            minFecal := [("EX_ac[fe]", -4)], maxFecal := [("EX_ac[fe]", 2)] }).find?
        fun p => p.1 = "EX_ac[fe]") =
      some ("EX_ac[fe]",
        |qGet [("Diet_EX_ac[d]", -5)]
            (pyReplace (pyReplace "EX_ac[fe]" "EX_" "Diet_EX_") "[fe]" "[d]") +
          qGet [("EX_ac[fe]", 2)] "EX_ac[fe]"|) ∧
    ((netUptakeMap (aggregationUniverse ["EX_ac[fe]"] ["EX_ac[fe]"])
          { minDiet := [("Diet_EX_ac[d]", -5)], maxDiet := [("Diet_EX_ac[d]", 3)],
            minFecal := [("EX_ac[fe]", -4)], maxFecal := [("EX_ac[fe]", 2)] }).find?
        fun p => p.1 = "EX_ac[fe]") =
      some ("EX_ac[fe]",
        |qGet [("Diet_EX_ac[d]", 3)]
            (pyReplace (pyReplace "EX_ac[fe]" "EX_" "Diet_EX_") "[fe]" "[d]") +
          qGet [("EX_ac[fe]", -4)] "EX_ac[fe]"|) :=
  c1_net_flux_arithmetic ["EX_ac[fe]"] ["EX_ac[fe]"]
    { minDiet := [("Diet_EX_ac[d]", -5)], maxDiet := [("Diet_EX_ac[d]", 3)],
      minFecal := [("EX_ac[fe]", -4)], maxFecal := [("EX_ac[fe]", 2)] }
    "EX_ac[fe]" (by decide)

/-! ### Claim C5 -/

/-- Claim C5 (code bug): `simulate_single_sample` never returns the documented
per-sample 3-tuple. Line 210 of `simulation.py` returns four values from
`_analyze_metabolite_fluxes`, line 77 unpacks them into two targets, so every
call raises `ValueError` (re-raised by the function's own `except` clause),
contradicting the docstring's `Returns: Tuple of (sample_name,
net_production_dict, net_uptake_dict)` and the spec. -/
theorem c5_simulate_single_sample_always_raises (sampleName : String)
    (fecalRxns exchanges : List String) (F : FVAResult) :
    simulateSingleSample sampleName fecalRxns exchanges F =
      Except.error "ValueError: too many values to unpack" := rfl

/-! ### Claim C6 -/

/-- Claim C6: diet adaptation first zeroes the lower bound of every
`Diet_EX_`-prefixed reaction, then applies each diet row present in the model
as an override of the lower bound (and the upper bound when given); every
reaction named by no diet row keeps exactly its zeroed-state bounds (frame
condition). -/
theorem c6_diet_zeroing_and_override (diet : List DietRow) (rxns : List SRxn)
    (hnd : (diet.map DietRow.rxnId).Nodup) :
    (∀ r ∈ zeroDietLB (renameDietRxns rxns), pyStartsWith r.id "Diet_EX_" = true → r.lb = 0) ∧
    applyDietaryConstraints diet rxns =
      (zeroDietLB (renameDietRxns rxns)).map (updRxn diet) ∧
    (∀ r : SRxn, (∀ row ∈ diet, row.rxnId ≠ r.id) → updRxn diet r = r) ∧
    (∀ (r : SRxn) (row : DietRow), row ∈ diet → row.rxnId = r.id →
      updRxn diet r = { r with lb := row.lb, ub := row.ub.getD r.ub }) := by
  refine ⟨?_, applyDietRows_eq_map diet _, updRxn_of_not_mem diet,
    fun r row hrow hid => updRxn_of_mem diet r row hnd hrow hid⟩
  intro r hr hpre
  rw [zeroDietLB, List.mem_map] at hr
  obtain ⟨x, _, rfl⟩ := hr
  by_cases hx : pyStartsWith x.id "Diet_EX_" = true
  · simp [hx]
  · rw [if_neg hx] at hpre ⊢
    exact absurd hpre hx

/-- Witness for C6 at the spec's own example: a model with diet reactions
`Diet_EX_glc[d]` and `Diet_EX_fru[d]` (pre-renaming ids `EX_glc[d]`,
`EX_fru[d]`) and the single diet row `{rxn: Diet_EX_glc[d], lower_bound:
-10}`. -/
theorem c6_diet_zeroing_and_override_witness :
    (∀ r ∈ zeroDietLB (renameDietRxns
        [{ id := "EX_glc[d]", lb := -1000, ub := 1000 },
          { id := "EX_fru[d]", lb := -7, ub := 800 }]),
      pyStartsWith r.id "Diet_EX_" = true → r.lb = 0) ∧
    applyDietaryConstraints [{ rxnId := "Diet_EX_glc[d]", lb := -10, ub := none }]
        [{ id := "EX_glc[d]", lb := -1000, ub := 1000 },
          { id := "EX_fru[d]", lb := -7, ub := 800 }] =
      (zeroDietLB (renameDietRxns
        [{ id := "EX_glc[d]", lb := -1000, ub := 1000 },
          { id := "EX_fru[d]", lb := -7, ub := 800 }])).map
        (updRxn [{ rxnId := "Diet_EX_glc[d]", lb := -10, ub := none }]) ∧
    (∀ r : SRxn,
      (∀ row ∈ [({ rxnId := "Diet_EX_glc[d]", lb := -10, ub := none } : DietRow)],
        row.rxnId ≠ r.id) →
      updRxn [{ rxnId := "Diet_EX_glc[d]", lb := -10, ub := none }] r = r) ∧
    (∀ (r : SRxn) (row : DietRow),
      row ∈ [({ rxnId := "Diet_EX_glc[d]", lb := -10, ub := none } : DietRow)] →
      row.rxnId = r.id →
      updRxn [{ rxnId := "Diet_EX_glc[d]", lb := -10, ub := none }] r =
        { r with lb := row.lb, ub := row.ub.getD r.ub }) :=
  c6_diet_zeroing_and_override [{ rxnId := "Diet_EX_glc[d]", lb := -10, ub := none }]
    [{ id := "EX_glc[d]", lb := -1000, ub := 1000 },
      { id := "EX_fru[d]", lb := -7, ub := 800 }] (by decide)

/-! ### Claim C7 -/

/-- Claim C7 (code bug): no FVA value is floored to zero before aggregation.
Line 193 of `simulation.py` reads `max_flux_fecal.get(fecal_var, 0) == 0`
under the tolerance test — a comparison whose result is discarded instead of
an assignment, so the comment's cutoff never happens. Here a fecal maximum of
1e-8 (below the 1e-7 tolerance, nonzero) enters the net-production formula
unfloored: the result is |(-1) + 1e-8|, not the |(-1) + 0| that flooring
would give. -/
theorem c7_no_flooring_code_bug :
    (|qGet [("EX_ac[fe]", 1 / 100000000)] "EX_ac[fe]"| < 1 / 10000000 ∧
      qGet [("EX_ac[fe]", 1 / 100000000)] "EX_ac[fe]" ≠ 0) ∧
    ((netProductionMap (aggregationUniverse ["EX_ac[fe]"] ["EX_ac[fe]"])
          { minDiet := [("Diet_EX_ac[d]", -1)], maxDiet := [],
            minFecal := [], maxFecal := [("EX_ac[fe]", 1 / 100000000)] }).find?
        fun p => p.1 = "EX_ac[fe]") =
      some ("EX_ac[fe]", |(-1 : ℚ) + 1 / 100000000|) ∧
    |(-1 : ℚ) + 1 / 100000000| ≠ |(-1 : ℚ) + 0| := by
  have hq : qGet [("EX_ac[fe]", 1 / 100000000)] "EX_ac[fe]" = 1 / 100000000 := rfl
  refine ⟨⟨?_, ?_⟩, ?_, ?_⟩
  · rw [hq, abs_of_pos (by norm_num)]
    norm_num
  · rw [hq]
    norm_num
  · rfl
  · have h1 : ((-1 : ℚ) + 1 / 100000000) < 0 := by norm_num
    rw [abs_of_neg h1, add_zero, abs_neg, abs_one]
    norm_num

/-! ### Claim C9 -/

/-- Claim C9 (code bug): the collecting loop of `simulate_microbiota_models`
does not survive a failing first task. The `except` block (line 270) formats
`sample_name`, which is unbound until some iteration has succeeded, so when
the first completed future raises, the loop itself raises `NameError` and the
whole phase aborts instead of logging and continuing. (With the line-77 arity
bug every future raises, so this is also the phase's actual behaviour.) -/
theorem c9_collect_loop_first_failure_aborts (e : String)
    (rest : List (Except String (List PyVal))) :
    collectResults (Except.error e :: rest) initialCollectState =
      Except.error sampleNameUnboundError := rfl

/-! ### Claim C10 -/

/-- Counterexample to claim C10 as stated: it is not true that no
community-biomass exchange ever appears as a key of the net-production or
net-uptake results regardless of the input metabolite list. With input
metabolite list `['microbeBiomass[e]']` the community-biomass exchange
`EX_microbeBiomass[fe]` (the very reaction the pipeline sets as objective) is
a key of both results, because line 236 excludes only the literal id
`biomass[e]`. -/
theorem c10_biomass_key_counterexample :
    "EX_microbeBiomass[fe]" ∈
      (netProductionMap
          (aggregationUniverse ["EX_microbeBiomass[fe]"]
            (buildExchanges ["microbeBiomass[e]"]))
          { minDiet := [], maxDiet := [], minFecal := [], maxFecal := [] }).map
        Prod.fst ∧
    "EX_microbeBiomass[fe]" ∈
      (netUptakeMap
          (aggregationUniverse ["EX_microbeBiomass[fe]"]
            (buildExchanges ["microbeBiomass[e]"]))
          { minDiet := [], maxDiet := [], minFecal := [], maxFecal := [] }).map
        Prod.fst := by
  constructor <;> decide

/-- Claim C10 (amended): the fecal-side exchange universe rewrites every input
metabolite id `m` to `EX_` ++ (`m` with `[e]` replaced by `[fe]`), omitting
exactly the literal id `biomass[e]`; consequently every key of the
net-production and net-uptake results is the rewrite of some input id other
than `biomass[e]` — so no key ever arises from `biomass[e]` — but the
exclusion guards only that literal id (see the counterexample with
`microbeBiomass[e]`). -/
theorem c10_exchange_universe_amended (exMets fecalRxns : List String) (F : FVAResult)
    (k : String)
    (h : k ∈ (netProductionMap
          (aggregationUniverse fecalRxns (buildExchanges exMets)) F).map Prod.fst ∨
        k ∈ (netUptakeMap
          (aggregationUniverse fecalRxns (buildExchanges exMets)) F).map Prod.fst) :
    ∃ m ∈ exMets, m ≠ "biomass[e]" ∧ k = "EX_" ++ pyReplace m "[e]" "[fe]" := by
  have hk : k ∈ aggregationUniverse fecalRxns (buildExchanges exMets) := by
    rcases h with h | h
    · rwa [netProductionMap, keys_map_pair] at h
    · rwa [netUptakeMap, keys_map_pair] at h
  have hk2 : k ∈ buildExchanges exMets := by
    rw [aggregationUniverse] at hk
    simpa using (List.mem_filter.mp hk).2
  rw [buildExchanges, List.mem_map] at hk2
  obtain ⟨m, hm, rfl⟩ := hk2
  rw [List.mem_filter] at hm
  exact ⟨m, hm.1, by simpa using hm.2, rfl⟩

/-- Witness for the amended C10 at a well-formed input: metabolite list
`['ac[e]']`, model exchange `EX_ac[fe]`. -/
theorem c10_exchange_universe_amended_witness :
    ∃ m ∈ ["ac[e]"], m ≠ "biomass[e]" ∧ "EX_ac[fe]" = "EX_" ++ pyReplace m "[e]" "[fe]" :=
  c10_exchange_universe_amended ["ac[e]"] ["EX_ac[fe]"]
    { minDiet := [], maxDiet := [], minFecal := [], maxFecal := [] } "EX_ac[fe]"
    (Or.inl (by decide))

/-! ### Community GEM builder: data model -/

/-- Metabolite of the community builder: id (encoding the compartment as a
bracketed suffix) and compartment tag. -/
structure Met where
  id : String
  compartment : String
deriving DecidableEq

/-- Reaction of the community builder: id, stoichiometry as an association
list from metabolite id to signed coefficient, and bounds. -/
structure Rxn where
  id : String
  stoich : List (String × ℚ)
  lb : ℚ
  ub : ℚ
deriving DecidableEq

/-- Stoichiometric network as the builder manipulates it. -/
structure CModel where
  mets : List Met
  rxns : List Rxn
deriving DecidableEq

/-- Line 29 of `community_gem_builder.py`: `ABUNDANCE_THRESHOLD = 1e-7`,
modelled as the rational 1/10^7 (written as a normalised fraction so that it
evaluates inside the kernel). -/
def abundanceThreshold : ℚ := ⟨1, 10000000, by decide, by decide⟩

theorem abundanceThreshold_eq : abundanceThreshold = 1 / 10000000 := by
  rw [abundanceThreshold, Rat.mk'_eq_divInt, Rat.divInt_eq_div]
  norm_num

/-! ### Community GEM builder: `com_biomass` and abundance pruning -/

/-- Line 164 of `community_gem_builder.py`:
`abun_df = abun_df[abun_df[sample_com] > ABUNDANCE_THRESHOLD]` — the rows kept
for the community biomass reaction, by strict comparison. -/
def comBiomassKept (abun : List (String × ℚ)) : List (String × ℚ) :=
  abun.filter fun p => abundanceThreshold < p.2

/-- Python dictionary assignment `d[k] = v` for string-keyed rational values
(insertion order preserved, overwrite in place). -/
def dictSetQ (d : List (String × ℚ)) (k : String) (v : ℚ) : List (String × ℚ) :=
  if d.any fun p => p.1 = k then d.map fun p => if p.1 = k then (k, v) else p
  else d ++ [(k, v)]

/-- Lines 174-181 of `community_gem_builder.py`, one abundance row: if the
metabolite `{microbe}_biomass[c]` exists in the model, record the coefficient
`-abundance`; otherwise log and omit (non-fatal). -/
def biomassStep (mets : List Met) (acc : List (String × ℚ)) (p : String × ℚ) :
    List (String × ℚ) :=
  if mets.any fun x => x.id = p.1 ++ "_biomass[c]" then
    dictSetQ acc (p.1 ++ "_biomass[c]") (-p.2)
  else acc

/-- Lines 172-182 of `community_gem_builder.py`: the abundance-weighted
biomass stoichiometry dictionary, built over the kept rows in table order. -/
def biomassStoich (mets : List Met) (abun : List (String × ℚ)) : List (String × ℚ) :=
  (comBiomassKept abun).foldl (biomassStep mets) []

/-- Lines 166-188 of `community_gem_builder.py`: the `communityBiomass`
reaction, bounds `(0., 10000.)`, abundance-weighted stoichiometry plus `+1` on
the product metabolite `microbeBiomass[u]`. -/
def communityBiomassRxn (M : CModel) (abun : List (String × ℚ)) : Rxn :=
  { id := "communityBiomass",
    stoich := biomassStoich M.mets abun ++ [("microbeBiomass[u]", 1)],
    lb := 0, ub := 10000 }

/-- Lines 190-197 of `community_gem_builder.py`: the fecal exchange of the
community biomass product, bounds `(-10000., 10000.)`. -/
def exMicrobeBiomassRxn : Rxn :=
  { id := "EX_microbeBiomass[fe]", stoich := [("microbeBiomass[fe]", -1)],
    lb := -10000, ub := 10000 }

/-- Lines 199-203 of `community_gem_builder.py`: the lumen-to-fecal transport
of the community biomass product, transport bounds `(0., 10000.)`. -/
def ufetMicrobeBiomassRxn : Rxn :=
  { id := "UFEt_microbeBiomass",
    stoich := [("microbeBiomass[u]", -1), ("microbeBiomass[fe]", 1)],
    lb := 0, ub := 10000 }

/-- The whole of `com_biomass` (lines 139-205 of `community_gem_builder.py`):
delete every reaction whose id contains `Biomass`, filter the abundance rows
strictly above the threshold, then add the community biomass reaction, its
fecal exchange and its lumen-to-fecal transport together with the two product
metabolites. -/
def comBiomass (M : CModel) (abun : List (String × ℚ)) : CModel :=
  { mets := M.mets ++ [{ id := "microbeBiomass[u]", compartment := "u" },
      { id := "microbeBiomass[fe]", compartment := "fe" }],
    rxns := (M.rxns.filter fun r => !(sContains r.id "Biomass")) ++
      [communityBiomassRxn M abun, exMicrobeBiomassRxn, ufetMicrobeBiomassRxn] }

/-- Line 418 of `community_gem_builder.py`:
`zero_microbe = [sp for sp in sample_abun.index if sample_abun[sp] < 1e-7]`. -/
def zeroMicrobeList (abun : List (String × ℚ)) : List String :=
  (abun.filter fun p => p.2 < abundanceThreshold).map Prod.fst

/-- Line 419 of `community_gem_builder.py`:
`present_microbe = [sp for sp in sample_abun.index if sample_abun[sp] >= 1e-7]`. -/
def presentMicrobeList (abun : List (String × ℚ)) : List String :=
  (abun.filter fun p => abundanceThreshold ≤ p.2).map Prod.fst

/-- Lines 318-340 of `community_gem_builder.py`
(`prune_zero_abundance_microbe`): remove every metabolite whose id starts with
`{microbe}_` for a listed microbe, and — destructive removal — every reaction
referencing a removed metabolite. -/
def pruneZeroAbundanceMicrobe (M : CModel) (zeros : List String) : CModel :=
  let removedIds :=
    (M.mets.filter fun x => zeros.any fun z => pyStartsWith x.id (z ++ "_")).map Met.id
  { mets := M.mets.filter fun x => !(zeros.any fun z => pyStartsWith x.id (z ++ "_")),
    rxns := M.rxns.filter fun r => !(r.stoich.any fun p => removedIds.contains p.1) }

theorem nodup_key_unique {α β : Type} (l : List (α × β))
    (hnd : (l.map Prod.fst).Nodup) {k : α} {v w : β}
    (hv : (k, v) ∈ l) (hw : (k, w) ∈ l) : v = w := by
  induction l with
  | nil => cases hv
  | cons p t ih =>
    rw [List.map_cons, List.nodup_cons] at hnd
    rcases List.mem_cons.mp hv with hv1 | hv' <;> rcases List.mem_cons.mp hw with hw1 | hw'
    · have h2 := hv1.trans hw1.symm
      simp only [Prod.mk.injEq] at h2
      exact h2.2
    · refine absurd (List.mem_map_of_mem Prod.fst hw') ?_
      rw [← hv1] at hnd
      exact hnd.1
    · refine absurd (List.mem_map_of_mem Prod.fst hv') ?_
      rw [← hw1] at hnd
      exact hnd.1
    · exact ih hnd.2 hv' hw'

/-! ### Claim C2 -/

/-- Counterexample to claim C2 as stated: an organism with abundance exactly
1e-7 is not pruned from the sample model. With abundance table
`{A: 1e-7}`, `build_sample_gem`'s zero list is empty (its test is the
non-strict-complement `< 1e-7`), the pruning leaves the model unchanged, and
A is even counted present (`>= 1e-7`); only `com_biomass` (strict `>`)
excludes A, so its biomass term is absent. The strict-greater threshold does
not govern the pruning in `build_sample_gem`. -/
theorem c2_threshold_counterexample :
    zeroMicrobeList [("A", abundanceThreshold)] = [] ∧
    pruneZeroAbundanceMicrobe
        { mets := [{ id := "A_biomass[c]", compartment := "c" }],
          rxns := [{ id := "A_rxn", stoich := [("A_biomass[c]", 1)], lb := 0, ub := 1000 }] }
        (zeroMicrobeList [("A", abundanceThreshold)]) =
      { mets := [{ id := "A_biomass[c]", compartment := "c" }],
        rxns := [{ id := "A_rxn", stoich := [("A_biomass[c]", 1)], lb := 0, ub := 1000 }] } ∧
    presentMicrobeList [("A", abundanceThreshold)] = ["A"] ∧
    biomassStoich [{ id := "A_biomass[c]", compartment := "c" }]
        [("A", abundanceThreshold)] = [] := by
  refine ⟨?_, ?_, ?_, ?_⟩ <;> decide

/-- Claim C2 (amended): `com_biomass` keeps a row exactly when its abundance
strictly exceeds 1e-7, but `build_sample_gem` prunes an organism only when its
abundance is strictly below 1e-7 and counts it present when the abundance is
at least 1e-7; an organism with abundance exactly 1e-7 is therefore retained
in the sample model and in the present list, yet contributes no community
biomass term. -/
theorem c2_threshold_amended (abun : List (String × ℚ)) (o : String) (a : ℚ)
    (hnd : (abun.map Prod.fst).Nodup) (hmem : (o, a) ∈ abun) :
    (o ∈ zeroMicrobeList abun ↔ a < abundanceThreshold) ∧
    (o ∈ presentMicrobeList abun ↔ abundanceThreshold ≤ a) ∧
    ((o, a) ∈ comBiomassKept abun ↔ abundanceThreshold < a) ∧
    (a = abundanceThreshold →
      o ∉ zeroMicrobeList abun ∧ o ∈ presentMicrobeList abun ∧
        (o, a) ∉ comBiomassKept abun) := by
  have hzero : o ∈ zeroMicrobeList abun ↔ a < abundanceThreshold := by
    constructor
    · intro h
      rw [zeroMicrobeList, List.mem_map] at h
      obtain ⟨⟨o', b⟩, hb, rfl⟩ := h
      rw [List.mem_filter] at hb
      have hba : b = a := nodup_key_unique abun hnd hb.1 hmem
      have := hb.2
      simp only [decide_eq_true_eq] at this
      exact hba ▸ this
    · intro h
      rw [zeroMicrobeList, List.mem_map]
      exact ⟨(o, a), List.mem_filter.mpr ⟨hmem, by simpa using h⟩, rfl⟩
  have hpres : o ∈ presentMicrobeList abun ↔ abundanceThreshold ≤ a := by
    constructor
    · intro h
      rw [presentMicrobeList, List.mem_map] at h
      obtain ⟨⟨o', b⟩, hb, rfl⟩ := h
      rw [List.mem_filter] at hb
      have hba : b = a := nodup_key_unique abun hnd hb.1 hmem
      have := hb.2
      simp only [decide_eq_true_eq] at this
      exact hba ▸ this
    · intro h
      rw [presentMicrobeList, List.mem_map]
      exact ⟨(o, a), List.mem_filter.mpr ⟨hmem, by simpa using h⟩, rfl⟩
  have hkept : (o, a) ∈ comBiomassKept abun ↔ abundanceThreshold < a := by
    rw [comBiomassKept, List.mem_filter]
    constructor
    · intro h
      simpa using h.2
    · intro h
      exact ⟨hmem, by simpa using h⟩
  refine ⟨hzero, hpres, hkept, fun heq => ⟨?_, ?_, ?_⟩⟩
  · rw [hzero, heq]
    exact lt_irrefl _
  · exact hpres.mpr (le_of_eq heq.symm)
  · rw [hkept, heq]
    exact lt_irrefl _

/-- Witness for the amended C2 with the table `{A: 1, B: 0}`. -/
theorem c2_threshold_amended_witness :
    ("A" ∈ zeroMicrobeList [("A", 1), ("B", 0)] ↔ (1 : ℚ) < abundanceThreshold) ∧
    ("A" ∈ presentMicrobeList [("A", 1), ("B", 0)] ↔ abundanceThreshold ≤ 1) ∧
    (("A", (1 : ℚ)) ∈ comBiomassKept [("A", 1), ("B", 0)] ↔ abundanceThreshold < 1) ∧
    ((1 : ℚ) = abundanceThreshold →
      "A" ∉ zeroMicrobeList [("A", 1), ("B", 0)] ∧
        "A" ∈ presentMicrobeList [("A", 1), ("B", 0)] ∧
        ("A", (1 : ℚ)) ∉ comBiomassKept [("A", 1), ("B", 0)]) :=
  c2_threshold_amended [("A", 1), ("B", 0)] "A" 1 (by decide) (by decide)

/-! ### Claim C4: supporting lemmas -/

theorem string_append_right_cancel {a b c : String} (h : a ++ c = b ++ c) : a = b := by
  apply String.ext
  have hd := congrArg String.data h
  rw [String.data_append, String.data_append] at hd
  exact List.append_cancel_right hd

theorem key_ne_microbe (o : String) : o ++ "_biomass[c]" ≠ "microbeBiomass[u]" := by
  intro h
  have hd : o.data ++ "_biomass[c]".data = "microbeBiomass[u]".data := by
    have := congrArg String.data h
    rwa [String.data_append] at this
  have hlen := congrArg List.length hd
  rw [List.length_append] at hlen
  have e1 : "_biomass[c]".data.length = 11 := rfl
  have e2 : "microbeBiomass[u]".data.length = 17 := rfl
  rw [e1, e2] at hlen
  have ho : o.data.length = 6 := by omega
  have hdrop : List.drop o.data.length (o.data ++ "_biomass[c]".data) = "_biomass[c]".data :=
    List.drop_left _ _
  rw [hd, ho] at hdrop
  exact absurd hdrop (by decide)

theorem find?_append_some {α : Type} (p : α → Bool) (l₁ l₂ : List α) (v : α)
    (h : l₁.find? p = some v) : (l₁ ++ l₂).find? p = some v := by
  induction l₁ with
  | nil => cases h
  | cons a t ih =>
    rw [List.cons_append, List.find?_cons]
    rw [List.find?_cons] at h
    cases hp : p a with
    | true => rw [hp] at h; exact h
    | false => rw [hp] at h; exact ih h

theorem find?_append_none {α : Type} (p : α → Bool) (l₁ l₂ : List α)
    (h : l₁.find? p = none) : (l₁ ++ l₂).find? p = l₂.find? p := by
  induction l₁ with
  | nil => rfl
  | cons a t ih =>
    rw [List.cons_append, List.find?_cons]
    rw [List.find?_cons] at h
    cases hp : p a with
    | true => rw [hp] at h; cases h
    | false => rw [hp] at h; exact ih h

theorem dictSetQ_fresh (d : List (String × ℚ)) (k : String) (v : ℚ)
    (h : ∀ p ∈ d, p.1 ≠ k) : dictSetQ d k v = d ++ [(k, v)] := by
  rw [dictSetQ, if_neg]
  intro hc
  rw [List.any_eq_true] at hc
  obtain ⟨p, hp, hpk⟩ := hc
  rw [decide_eq_true_eq] at hpk
  exact h p hp hpk

theorem biomassFold_eq (mets : List Met) (l : List (String × ℚ)) :
    ∀ acc : List (String × ℚ),
      (∀ q ∈ acc, ∀ p ∈ l, q.1 ≠ p.1 ++ "_biomass[c]") →
      (l.map Prod.fst).Nodup →
      l.foldl (biomassStep mets) acc =
        acc ++
          ((l.filter fun p => mets.any fun x => x.id = p.1 ++ "_biomass[c]").map
            fun p => (p.1 ++ "_biomass[c]", -p.2)) := by
  induction l with
  | nil => intro acc _ _; simp
  | cons p t ih =>
    intro acc hfresh hnd
    rw [List.map_cons, List.nodup_cons] at hnd
    rw [List.foldl_cons]
    by_cases hmet : (mets.any fun x => x.id = p.1 ++ "_biomass[c]") = true
    · have hstep : biomassStep mets acc p = acc ++ [(p.1 ++ "_biomass[c]", -p.2)] := by
        rw [biomassStep, if_pos hmet]
        exact dictSetQ_fresh _ _ _ fun q hq => hfresh q hq p (by simp)
      rw [hstep, ih _ ?_ hnd.2]
      · rw [List.filter_cons, if_pos hmet, List.map_cons, List.append_assoc,
          List.singleton_append]
      · intro q hq p' hp'
        rcases List.mem_append.mp hq with hq1 | hq2
        · exact hfresh q hq1 p' (List.mem_cons_of_mem _ hp')
        · have hq3 : q = (p.1 ++ "_biomass[c]", -p.2) := by simpa using hq2
          rw [hq3]
          intro hc
          have hpp : p.1 = p'.1 := string_append_right_cancel hc
          exact hnd.1 (hpp ▸ List.mem_map_of_mem Prod.fst hp')
    · have hstep : biomassStep mets acc p = acc := by rw [biomassStep, if_neg hmet]
      rw [hstep, ih _ (fun q hq p' hp' => hfresh q hq p' (List.mem_cons_of_mem _ hp')) hnd.2,
        List.filter_cons, if_neg hmet]

theorem biomassStoich_eq (mets : List Met) (abun : List (String × ℚ))
    (hnd : (abun.map Prod.fst).Nodup) :
    biomassStoich mets abun =
      ((comBiomassKept abun).filter fun p => mets.any fun x => x.id = p.1 ++ "_biomass[c]").map
        fun p => (p.1 ++ "_biomass[c]", -p.2) := by
  have hkept : ((comBiomassKept abun).map Prod.fst).Nodup :=
    List.Nodup.sublist (List.Sublist.map Prod.fst (List.filter_sublist abun)) hnd
  rw [biomassStoich, biomassFold_eq mets _ [] (by intro q hq; cases hq) hkept,
    List.nil_append]

theorem find?_biomass_map (l : List (String × ℚ)) (o : String) (a : ℚ)
    (hnd : (l.map Prod.fst).Nodup) (hmem : (o, a) ∈ l) :
    ((l.map fun p => (p.1 ++ "_biomass[c]", -p.2)).find?
        fun q => q.1 = o ++ "_biomass[c]") = some (o ++ "_biomass[c]", -a) := by
  induction l with
  | nil => cases hmem
  | cons p t ih =>
    rw [List.map_cons, List.nodup_cons] at hnd
    rw [List.map_cons, List.find?_cons]
    by_cases hpo : p.1 = o
    · have hdec : (decide ((p.1 ++ "_biomass[c]", -p.2).1 = o ++ "_biomass[c]")) = true := by
        simp [hpo]
      rw [hdec]
      have hpa : p.2 = a := by
        rcases List.mem_cons.mp hmem with h1 | h2
        · rw [← h1]
        · exact absurd (hpo ▸ List.mem_map_of_mem Prod.fst h2) hnd.1
      rw [hpo, hpa]
    · have hdec : (decide ((p.1 ++ "_biomass[c]", -p.2).1 = o ++ "_biomass[c]")) = false := by
        rw [decide_eq_false_iff_not]
        intro hc
        exact hpo (string_append_right_cancel hc)
      rw [hdec]
      refine ih hnd.2 ?_
      rcases List.mem_cons.mp hmem with h1 | h2
      · exact absurd (by rw [← h1]) hpo
      · exact h2

theorem biomassStoich_mem (mets : List Met) (abun : List (String × ℚ))
    (hnd : (abun.map Prod.fst).Nodup) (q : String × ℚ)
    (hq : q ∈ biomassStoich mets abun) :
    ∃ (o : String) (a : ℚ), (o, a) ∈ abun ∧ abundanceThreshold < a ∧
      (mets.any fun x => x.id = o ++ "_biomass[c]") = true ∧
      q = (o ++ "_biomass[c]", -a) := by
  rw [biomassStoich_eq mets abun hnd, List.mem_map] at hq
  obtain ⟨p, hp, rfl⟩ := hq
  rw [List.mem_filter] at hp
  have hk := hp.1
  rw [comBiomassKept, List.mem_filter] at hk
  exact ⟨p.1, p.2, hk.1, by simpa using hk.2, hp.2, rfl⟩

/-! ### Claim C4 -/

/-- Claim C4: `com_biomass` produces the reaction `communityBiomass` with
bounds `[0, 10000]` whose stoichiometry holds exactly one term
`-abundance` on `{organism}_biomass[c]` for each organism strictly above the
threshold whose biomass metabolite exists in the network, plus `+1` on
`microbeBiomass[u]`; an organism with a missing biomass metabolite or an
abundance at or below the threshold contributes no term. -/
theorem c4_community_biomass (M : CModel) (abun : List (String × ℚ))
    (hnd : (abun.map Prod.fst).Nodup) :
    ∃ cb : Rxn,
      ((comBiomass M abun).rxns.find? fun r => r.id = "communityBiomass") = some cb ∧
      cb.lb = 0 ∧ cb.ub = 10000 ∧
      (cb.stoich.find? fun q => q.1 = "microbeBiomass[u]") =
        some ("microbeBiomass[u]", 1) ∧
      (∀ (o : String) (a : ℚ), (o, a) ∈ abun →
        (cb.stoich.find? fun q => q.1 = o ++ "_biomass[c]") =
          (if abundanceThreshold < a ∧
              (M.mets.any fun x => x.id = o ++ "_biomass[c]") = true
            then some (o ++ "_biomass[c]", -a) else none)) ∧
      (∀ q ∈ cb.stoich, q = ("microbeBiomass[u]", 1) ∨
        ∃ (o : String) (a : ℚ), (o, a) ∈ abun ∧ abundanceThreshold < a ∧
          (M.mets.any fun x => x.id = o ++ "_biomass[c]") = true ∧
          q = (o ++ "_biomass[c]", -a)) := by
  refine ⟨communityBiomassRxn M abun, ?_, rfl, rfl, ?_, ?_, ?_⟩
  · show ((M.rxns.filter fun r => !(sContains r.id "Biomass")) ++
        [communityBiomassRxn M abun, exMicrobeBiomassRxn, ufetMicrobeBiomassRxn]).find?
        (fun r => r.id = "communityBiomass") = _
    rw [find?_append_none]
    · rw [List.find?_cons]
      have hdec : (decide ((communityBiomassRxn M abun).id = "communityBiomass")) = true := by
        rw [decide_eq_true_eq]
        rfl
      rw [hdec]
    · rw [List.find?_eq_none]
      intro r hr
      rw [List.mem_filter] at hr
      rw [decide_eq_true_eq]
      intro hc
      have hb := hr.2
      rw [hc] at hb
      exact absurd hb (by decide)
  · have hst : (communityBiomassRxn M abun).stoich =
        biomassStoich M.mets abun ++ [("microbeBiomass[u]", 1)] := rfl
    rw [hst, find?_append_none]
    · rw [List.find?_cons]
      have : (decide ((("microbeBiomass[u]", (1 : ℚ))).1 = "microbeBiomass[u]")) = true := by
        decide
      rw [this]
    · rw [List.find?_eq_none]
      intro q hq
      obtain ⟨o, a, _, _, _, rfl⟩ := biomassStoich_mem M.mets abun hnd q hq
      rw [decide_eq_true_eq]
      exact key_ne_microbe o
  · intro o a hmem
    have hst : (communityBiomassRxn M abun).stoich =
        biomassStoich M.mets abun ++ [("microbeBiomass[u]", 1)] := rfl
    rw [hst]
    by_cases hcond : abundanceThreshold < a ∧
        (M.mets.any fun x => x.id = o ++ "_biomass[c]") = true
    · rw [if_pos hcond]
      apply find?_append_some
      rw [biomassStoich_eq M.mets abun hnd]
      have hfil : (o, a) ∈
          (comBiomassKept abun).filter fun p =>
            M.mets.any fun x => x.id = p.1 ++ "_biomass[c]" := by
        rw [List.mem_filter]
        exact ⟨List.mem_filter.mpr ⟨hmem, by simpa using hcond.1⟩, hcond.2⟩
      have hndf : ((((comBiomassKept abun).filter fun p =>
          M.mets.any fun x => x.id = p.1 ++ "_biomass[c]")).map Prod.fst).Nodup := by
        refine List.Nodup.sublist (List.Sublist.map Prod.fst ?_) hnd
        exact (List.filter_sublist _).trans (List.filter_sublist abun)
      exact find?_biomass_map _ o a hndf hfil
    · rw [if_neg hcond]
      rw [find?_append_none]
      · rw [List.find?_cons]
        have : (decide ((("microbeBiomass[u]", (1 : ℚ))).1 = o ++ "_biomass[c]")) = false := by
          rw [decide_eq_false_iff_not]
          exact fun hc => key_ne_microbe o hc.symm
        rw [this]
        rfl
      · rw [List.find?_eq_none]
        intro q hq
        obtain ⟨o', a', hmem', hth', hany', rfl⟩ := biomassStoich_mem M.mets abun hnd q hq
        rw [decide_eq_true_eq]
        intro hc
        have ho : o' = o := string_append_right_cancel hc
        subst ho
        have ha : a' = a := nodup_key_unique abun hnd hmem' hmem
        subst ha
        exact hcond ⟨hth', hany'⟩
  · intro q hq
    have hst : (communityBiomassRxn M abun).stoich =
        biomassStoich M.mets abun ++ [("microbeBiomass[u]", 1)] := rfl
    rw [hst] at hq
    rcases List.mem_append.mp hq with hq1 | hq2
    · exact Or.inr (biomassStoich_mem M.mets abun hnd q hq1)
    · exact Or.inl (by simpa using hq2)

/-- Witness for C4 at the spec's own example: abundances
`{A: 3/5, B: 3/10, C: 0}`, biomass metabolites present for A and B only. -/
theorem c4_community_biomass_witness :
    ∃ cb : Rxn,
      ((comBiomass
            { mets := [{ id := "A_biomass[c]", compartment := "c" },
                { id := "B_biomass[c]", compartment := "c" }],
              rxns := [] }
            [("A", 3/5), ("B", 3/10), ("C", 0)]).rxns.find?
          fun r => r.id = "communityBiomass") = some cb ∧
      cb.lb = 0 ∧ cb.ub = 10000 ∧
      (cb.stoich.find? fun q => q.1 = "microbeBiomass[u]") =
        some ("microbeBiomass[u]", 1) ∧
      (∀ (o : String) (a : ℚ), (o, a) ∈ [("A", (3:ℚ)/5), ("B", 3/10), ("C", 0)] →
        (cb.stoich.find? fun q => q.1 = o ++ "_biomass[c]") =
          (if abundanceThreshold < a ∧
              (([{ id := "A_biomass[c]", compartment := "c" },
                  { id := "B_biomass[c]", compartment := "c" }] : List Met).any
                fun x => x.id = o ++ "_biomass[c]") = true
            then some (o ++ "_biomass[c]", -a) else none)) ∧
      (∀ q ∈ cb.stoich, q = ("microbeBiomass[u]", 1) ∨
        ∃ (o : String) (a : ℚ), (o, a) ∈ [("A", (3:ℚ)/5), ("B", 3/10), ("C", 0)] ∧
          abundanceThreshold < a ∧
          (([{ id := "A_biomass[c]", compartment := "c" },
              { id := "B_biomass[c]", compartment := "c" }] : List Met).any
            fun x => x.id = o ++ "_biomass[c]") = true ∧
          q = (o ++ "_biomass[c]", -a)) :=
  c4_community_biomass
    { mets := [{ id := "A_biomass[c]", compartment := "c" },
        { id := "B_biomass[c]", compartment := "c" }], rxns := [] }
    [("A", 3/5), ("B", 3/10), ("C", 0)] (by decide)

/-! ### Community GEM builder: diet and fecal compartments -/

/-- Cobra's `Reaction.add_metabolites` with `combine=True` for one metabolite:
add `v` to the existing coefficient, or append the entry. -/
def addCoef (r : Rxn) (k : String) (v : ℚ) : Rxn :=
  if r.stoich.any fun p => p.1 = k then
    { r with stoich := r.stoich.map fun p => if p.1 = k then (p.1, p.2 + v) else p }
  else { r with stoich := r.stoich ++ [(k, v)] }

/-- Lines 83-84 of `community_gem_builder.py`: delete every reaction whose id
contains `_EX_` or `(e)`. -/
def removeExchangeArtifacts (M : CModel) : CModel :=
  { M with rxns := M.rxns.filter fun r => !(sContains r.id "_EX_" || sContains r.id "(e)") }

/-- Line 103 of `community_gem_builder.py`: `lumen_met.split('[')[0]`. -/
def baseNameOf (mid : String) : String :=
  ⟨mid.data.takeWhile fun c => c ≠ '['⟩

/-- Lines 88-96 of `community_gem_builder.py`: the general lumen metabolites —
every `[u]` metabolite occurring with a negative coefficient (a reactant) in a
reaction whose id contains `IEX`, deduplicated (`set`, modelled as the list of
first occurrences). -/
def generalMets (M : CModel) : List String :=
  ((M.rxns.filter fun r => sContains r.id "IEX").foldl
    (fun acc r =>
      acc ++ (r.stoich.filter fun p => decide (p.2 < 0) && sContains p.1 "[u]").map Prod.fst)
    []).dedup

/-- Lines 116-127 of `community_gem_builder.py`
(`_add_exchange_reaction`): skipped when the metabolite `base[compartment]`
already exists in the pre-loop snapshot; otherwise add the metabolite and the
exchange reaction `EX_base[compartment]` with coefficient -1 and bounds
`EXCHANGE_BOUNDS = (-1000., 10000.)`. When a reaction with that id already
exists, cobra's `add_reactions` ignores the duplicate and the subsequent
`add_metabolites` adds -1 to the existing reaction's coefficient. -/
def addExchangeReaction (base comp : String) (snapshotMets : List String)
    (M : CModel) : CModel :=
  let metId := base ++ ("[" ++ (comp ++ "]"))
  let reacId := "EX_" ++ metId
  if snapshotMets.contains metId then M
  else
    let withMet : CModel := { M with mets := M.mets ++ [{ id := metId, compartment := comp }] }
    if withMet.rxns.any fun x => x.id = reacId then
      { withMet with
        rxns := withMet.rxns.map fun x => if x.id = reacId then addCoef x metId (-1) else x }
    else
      { withMet with
        rxns := withMet.rxns ++
          [{ id := reacId, stoich := [(metId, -1)], lb := -1000, ub := 10000 }] }

/-- Lines 129-137 of `community_gem_builder.py`
(`_add_transport_reaction`): skipped when the reaction id is in the pre-loop
snapshot; a duplicate id in the current model is ignored by `add_reactions`
(the subsequent assignments touch the detached object only); otherwise add
`reactant --> product` with bounds `TRANSPORT_BOUNDS = (0., 10000.)`. -/
def addTransportReaction (rid : String) (snapshotRxns : List String)
    (reactant product : String) (M : CModel) : CModel :=
  if snapshotRxns.contains rid then M
  else if M.rxns.any fun x => x.id = rid then M
  else
    { M with
      rxns := M.rxns ++ [{ id := rid, stoich := [(reactant, -1), (product, 1)], lb := 0, ub := 10000 }] }

/-- Lines 102-112 of `community_gem_builder.py`, one general lumen metabolite:
diet exchange, diet-to-lumen transport, fecal exchange, lumen-to-fecal
transport, in source order. -/
def dietFecalStep (snapshotMets snapshotRxns : List String) (acc : CModel)
    (lumenMet : String) : CModel :=
  let base := baseNameOf lumenMet
  addTransportReaction ("UFEt_" ++ base) snapshotRxns lumenMet (base ++ "[fe]")
    (addExchangeReaction base "fe" snapshotMets
      (addTransportReaction ("DUt_" ++ base) snapshotRxns (base ++ "[d]") lumenMet
        (addExchangeReaction base "d" snapshotMets acc)))

/-- The whole of `add_diet_fecal_compartments` (lines 52-114 of
`community_gem_builder.py`): remove exchange artifacts, snapshot the existing
metabolite and reaction ids, then process every general lumen metabolite. -/
def addDietFecalCompartments (M : CModel) : CModel :=
  let M0 := removeExchangeArtifacts M
  (generalMets M0).foldl (dietFecalStep (M0.mets.map Met.id) (M0.rxns.map Rxn.id)) M0

/-- The four reactions the loop body may add for a base name `b` and lumen
metabolite `g`. -/
def dietExchangeRxn (b : String) : Rxn :=
  { id := "EX_" ++ (b ++ "[d]"), stoich := [(b ++ "[d]", -1)], lb := -1000, ub := 10000 }

def dutRxn (b g : String) : Rxn :=
  { id := "DUt_" ++ b, stoich := [(b ++ "[d]", -1), (g, 1)], lb := 0, ub := 10000 }

def fecalExchangeRxn (b : String) : Rxn :=
  { id := "EX_" ++ (b ++ "[fe]"), stoich := [(b ++ "[fe]", -1)], lb := -1000, ub := 10000 }

def ufetRxn (b g : String) : Rxn :=
  { id := "UFEt_" ++ b, stoich := [(g, -1), (b ++ "[fe]", 1)], lb := 0, ub := 10000 }

/-- The ids the loop body can create for a base name `b`. -/
def famIds (b : String) : List String :=
  ["EX_" ++ (b ++ "[d]"), "DUt_" ++ b, "EX_" ++ (b ++ "[fe]"), "UFEt_" ++ b]

theorem string_append_left_cancel {a b c : String} (h : a ++ b = a ++ c) : b = c := by
  apply String.ext
  have hd := congrArg String.data h
  rw [String.data_append, String.data_append] at hd
  exact List.append_cancel_left hd

theorem ex_ne_dut (x y : String) : "EX_" ++ x ≠ "DUt_" ++ y := by
  intro hc
  have h : ("EX_" ++ x).data.headD ' ' = ("DUt_" ++ y).data.headD ' ' :=
    congrArg (fun s : String => s.data.headD ' ') hc
  have e1 : ("EX_" ++ x).data.headD ' ' = 'E' := rfl
  have e2 : ("DUt_" ++ y).data.headD ' ' = 'D' := rfl
  rw [e1, e2] at h
  exact absurd h (by decide)

theorem ex_ne_ufet (x y : String) : "EX_" ++ x ≠ "UFEt_" ++ y := by
  intro hc
  have h : ("EX_" ++ x).data.headD ' ' = ("UFEt_" ++ y).data.headD ' ' :=
    congrArg (fun s : String => s.data.headD ' ') hc
  have e1 : ("EX_" ++ x).data.headD ' ' = 'E' := rfl
  have e2 : ("UFEt_" ++ y).data.headD ' ' = 'U' := rfl
  rw [e1, e2] at h
  exact absurd h (by decide)

theorem dut_ne_ufet (x y : String) : "DUt_" ++ x ≠ "UFEt_" ++ y := by
  intro hc
  have h : ("DUt_" ++ x).data.headD ' ' = ("UFEt_" ++ y).data.headD ' ' :=
    congrArg (fun s : String => s.data.headD ' ') hc
  have e1 : ("DUt_" ++ x).data.headD ' ' = 'D' := rfl
  have e2 : ("UFEt_" ++ y).data.headD ' ' = 'U' := rfl
  rw [e1, e2] at h
  exact absurd h (by decide)

theorem d_ne_fe (b c : String) : b ++ "[d]" ≠ c ++ "[fe]" := by
  intro h
  have hd := congrArg String.data h
  rw [String.data_append, String.data_append] at hd
  have hr := congrArg List.reverse hd
  rw [List.reverse_append, List.reverse_append] at hr
  have e1 : "[d]".data.reverse = [']', 'd', '['] := rfl
  have e2 : "[fe]".data.reverse = [']', 'e', 'f', '['] := rfl
  rw [e1, e2] at hr
  injection hr with h1 h2
  injection h2 with h3 _
  exact absurd h3 (by decide)

theorem famIds_disjoint {b b' : String} (hne : b ≠ b') {t : String}
    (ht : t ∈ famIds b) (ht' : t ∈ famIds b') : False := by
  simp only [famIds, List.mem_cons, List.not_mem_nil, or_false] at ht ht'
  rcases ht with rfl | rfl | rfl | rfl <;> rcases ht' with h | h | h | h
  · exact hne (string_append_right_cancel (string_append_left_cancel h))
  · exact ex_ne_dut _ _ h
  · exact d_ne_fe b b' (string_append_left_cancel h)
  · exact ex_ne_ufet _ _ h
  · exact ex_ne_dut _ _ h.symm
  · exact hne (string_append_left_cancel h)
  · exact ex_ne_dut _ _ h.symm
  · exact dut_ne_ufet _ _ h
  · exact d_ne_fe b' b (string_append_left_cancel h).symm
  · exact ex_ne_dut _ _ h
  · exact hne (string_append_right_cancel (string_append_left_cancel h))
  · exact ex_ne_ufet _ _ h
  · exact ex_ne_ufet _ _ h.symm
  · exact dut_ne_ufet _ _ h.symm
  · exact ex_ne_ufet _ _ h.symm
  · exact hne (string_append_left_cancel h)

theorem addCoef_id (r : Rxn) (k : String) (v : ℚ) : (addCoef r k v).id = r.id := by
  rw [addCoef]
  split <;> rfl

theorem addExchange_preserve (base comp : String) (sm : List String) (M : CModel)
    (r : Rxn) (hr : r ∈ M.rxns)
    (hne : r.id ≠ "EX_" ++ (base ++ ("[" ++ (comp ++ "]")))) :
    r ∈ (addExchangeReaction base comp sm M).rxns := by
  dsimp only [addExchangeReaction]
  split_ifs
  · exact hr
  · exact List.mem_map.mpr ⟨r, hr, by rw [if_neg hne]⟩
  · exact List.mem_append_left _ hr

theorem addTransport_preserve (rid : String) (sr : List String) (a b : String)
    (M : CModel) (r : Rxn) (hr : r ∈ M.rxns) :
    r ∈ (addTransportReaction rid sr a b M).rxns := by
  dsimp only [addTransportReaction]
  split_ifs
  · exact hr
  · exact hr
  · exact List.mem_append_left _ hr

theorem addExchange_ids (base comp : String) (sm : List String) (M : CModel)
    (i : String) (hi : i ∈ (addExchangeReaction base comp sm M).rxns.map Rxn.id) :
    i ∈ M.rxns.map Rxn.id ∨ i = "EX_" ++ (base ++ ("[" ++ (comp ++ "]"))) := by
  dsimp only [addExchangeReaction] at hi
  split_ifs at hi
  · exact Or.inl hi
  · dsimp only at hi
    rw [List.map_map] at hi
    obtain ⟨y, hy, hxy⟩ := List.mem_map.mp hi
    left
    have hid : (Rxn.id ∘ fun x : Rxn =>
        if x.id = "EX_" ++ (base ++ ("[" ++ (comp ++ "]"))) then
          addCoef x (base ++ ("[" ++ (comp ++ "]"))) (-1) else x) y = y.id := by
      simp only [Function.comp]
      split
      · exact addCoef_id _ _ _
      · rfl
    rw [← hxy, hid]
    exact List.mem_map_of_mem Rxn.id hy
  · dsimp only at hi
    rw [List.map_append] at hi
    rcases List.mem_append.mp hi with h | h
    · exact Or.inl h
    · right
      simpa using h

theorem addTransport_ids (rid : String) (sr : List String) (a b : String) (M : CModel)
    (i : String) (hi : i ∈ (addTransportReaction rid sr a b M).rxns.map Rxn.id) :
    i ∈ M.rxns.map Rxn.id ∨ i = rid := by
  dsimp only [addTransportReaction] at hi
  split_ifs at hi
  · exact Or.inl hi
  · exact Or.inl hi
  · rw [List.map_append] at hi
    rcases List.mem_append.mp hi with h | h
    · exact Or.inl h
    · right
      simpa using h

theorem dietFecalStep_ids (sm sr : List String) (acc : CModel) (g : String)
    (i : String) (hi : i ∈ (dietFecalStep sm sr acc g).rxns.map Rxn.id) :
    i ∈ acc.rxns.map Rxn.id ∨ i ∈ famIds (baseNameOf g) := by
  dsimp only [dietFecalStep] at hi
  rcases addTransport_ids _ _ _ _ _ _ hi with h4 | h4
  · rcases addExchange_ids _ _ _ _ _ h4 with h3 | h3
    · rcases addTransport_ids _ _ _ _ _ _ h3 with h2 | h2
      · rcases addExchange_ids _ _ _ _ _ h2 with h1 | h1
        · exact Or.inl h1
        · refine Or.inr ?_
          rw [h1]
          show "EX_" ++ (baseNameOf g ++ "[d]") ∈ famIds (baseNameOf g)
          simp [famIds]
      · refine Or.inr ?_
        rw [h2]
        simp [famIds]
    · refine Or.inr ?_
      rw [h3]
      show "EX_" ++ (baseNameOf g ++ "[fe]") ∈ famIds (baseNameOf g)
      simp [famIds]
  · refine Or.inr ?_
    rw [h4]
    simp [famIds]

theorem dietFecalStep_preserve (sm sr : List String) (acc : CModel) (g : String)
    (r : Rxn) (hr : r ∈ acc.rxns) (hfam : r.id ∉ famIds (baseNameOf g)) :
    r ∈ (dietFecalStep sm sr acc g).rxns := by
  dsimp only [dietFecalStep]
  apply addTransport_preserve
  apply addExchange_preserve
  · apply addTransport_preserve
    apply addExchange_preserve
    · exact hr
    · intro hc
      apply hfam
      rw [hc]
      show "EX_" ++ (baseNameOf g ++ "[d]") ∈ famIds (baseNameOf g)
      simp [famIds]
  · intro hc
    apply hfam
    rw [hc]
    show "EX_" ++ (baseNameOf g ++ "[fe]") ∈ famIds (baseNameOf g)
    simp [famIds]

theorem any_id_eq_false {rxns : List Rxn} {i : String}
    (h : i ∉ rxns.map Rxn.id) : (rxns.any fun x => x.id = i) = false := by
  rw [List.any_eq_false]
  intro x hx
  rw [decide_eq_true_eq]
  intro hc
  exact h (hc ▸ List.mem_map_of_mem Rxn.id hx)

theorem addExchange_fresh_eq (base comp : String) (sm : List String) (M : CModel)
    (hmet : base ++ ("[" ++ (comp ++ "]")) ∉ sm)
    (hrxn : "EX_" ++ (base ++ ("[" ++ (comp ++ "]"))) ∉ M.rxns.map Rxn.id) :
    (addExchangeReaction base comp sm M).rxns =
      M.rxns ++
        [{ id := "EX_" ++ (base ++ ("[" ++ (comp ++ "]"))), stoich := [(base ++ ("[" ++ (comp ++ "]")), -1)], lb := -1000, ub := 10000 }] := by
  dsimp only [addExchangeReaction]
  rw [if_neg (by simpa using hmet), if_neg (by simp [any_id_eq_false hrxn])]

theorem addTransport_fresh_eq (rid : String) (sr : List String) (a b : String)
    (M : CModel) (hsnap : rid ∉ sr) (hrxn : rid ∉ M.rxns.map Rxn.id) :
    (addTransportReaction rid sr a b M).rxns =
      M.rxns ++ [{ id := rid, stoich := [(a, -1), (b, 1)], lb := 0, ub := 10000 }] := by
  dsimp only [addTransportReaction]
  rw [if_neg (by simpa using hsnap), if_neg (by simp [any_id_eq_false hrxn])]

theorem dietFecalStep_fresh_eq (sm sr : List String) (acc : CModel) (g : String)
    (hdmet : baseNameOf g ++ "[d]" ∉ sm) (hfemet : baseNameOf g ++ "[fe]" ∉ sm)
    (hdutsnap : "DUt_" ++ baseNameOf g ∉ sr) (hufetsnap : "UFEt_" ++ baseNameOf g ∉ sr)
    (hexd : "EX_" ++ (baseNameOf g ++ "[d]") ∉ acc.rxns.map Rxn.id)
    (hdut : "DUt_" ++ baseNameOf g ∉ acc.rxns.map Rxn.id)
    (hexfe : "EX_" ++ (baseNameOf g ++ "[fe]") ∉ acc.rxns.map Rxn.id)
    (hufet : "UFEt_" ++ baseNameOf g ∉ acc.rxns.map Rxn.id) :
    (dietFecalStep sm sr acc g).rxns =
      acc.rxns ++ [dietExchangeRxn (baseNameOf g), dutRxn (baseNameOf g) g,
        fecalExchangeRxn (baseNameOf g), ufetRxn (baseNameOf g) g] := by
  have e1 : (addExchangeReaction (baseNameOf g) "d" sm acc).rxns =
      acc.rxns ++ [dietExchangeRxn (baseNameOf g)] := by
    rw [addExchange_fresh_eq (baseNameOf g) "d" sm acc hdmet hexd]
    rfl
  have hf2 : "DUt_" ++ baseNameOf g ∉
      (addExchangeReaction (baseNameOf g) "d" sm acc).rxns.map Rxn.id := by
    rw [e1, List.map_append]
    intro hc
    rcases List.mem_append.mp hc with h | h
    · exact hdut h
    · have h2 : "DUt_" ++ baseNameOf g = (dietExchangeRxn (baseNameOf g)).id := by
        simpa using h
      exact ex_ne_dut _ _ h2.symm
  have e2 : (addTransportReaction ("DUt_" ++ baseNameOf g) sr (baseNameOf g ++ "[d]") g
        (addExchangeReaction (baseNameOf g) "d" sm acc)).rxns =
      acc.rxns ++ [dietExchangeRxn (baseNameOf g), dutRxn (baseNameOf g) g] := by
    rw [addTransport_fresh_eq _ sr _ _ _ hdutsnap hf2, e1, List.append_assoc]
    rfl
  have hf3 : "EX_" ++ (baseNameOf g ++ ("[" ++ ("fe" ++ "]"))) ∉
      (addTransportReaction ("DUt_" ++ baseNameOf g) sr (baseNameOf g ++ "[d]") g
        (addExchangeReaction (baseNameOf g) "d" sm acc)).rxns.map Rxn.id := by
    rw [e2, List.map_append]
    intro hc
    rcases List.mem_append.mp hc with h | h
    · exact hexfe h
    · simp only [List.map_cons, List.map_nil, List.mem_cons, List.not_mem_nil,
        or_false] at h
      rcases h with h | h
      · have h2 : baseNameOf g ++ "[fe]" = baseNameOf g ++ "[d]" :=
          string_append_left_cancel
            (show "EX_" ++ (baseNameOf g ++ "[fe]") =
              "EX_" ++ (baseNameOf g ++ "[d]") from h)
        exact d_ne_fe (baseNameOf g) (baseNameOf g) h2.symm
      · exact ex_ne_dut _ _
          (show "EX_" ++ (baseNameOf g ++ "[fe]") = "DUt_" ++ baseNameOf g from h)
  have e3 : (addExchangeReaction (baseNameOf g) "fe" sm
        (addTransportReaction ("DUt_" ++ baseNameOf g) sr (baseNameOf g ++ "[d]") g
          (addExchangeReaction (baseNameOf g) "d" sm acc))).rxns =
      acc.rxns ++ [dietExchangeRxn (baseNameOf g), dutRxn (baseNameOf g) g,
        fecalExchangeRxn (baseNameOf g)] := by
    rw [addExchange_fresh_eq (baseNameOf g) "fe" sm _ hfemet hf3, e2, List.append_assoc]
    rfl
  have hf4 : "UFEt_" ++ baseNameOf g ∉
      (addExchangeReaction (baseNameOf g) "fe" sm
        (addTransportReaction ("DUt_" ++ baseNameOf g) sr (baseNameOf g ++ "[d]") g
          (addExchangeReaction (baseNameOf g) "d" sm acc))).rxns.map Rxn.id := by
    rw [e3, List.map_append]
    intro hc
    rcases List.mem_append.mp hc with h | h
    · exact hufet h
    · simp only [List.map_cons, List.map_nil, List.mem_cons, List.not_mem_nil,
        or_false] at h
      rcases h with h | h | h
      · exact ex_ne_ufet _ _
          (show "EX_" ++ (baseNameOf g ++ "[d]") = "UFEt_" ++ baseNameOf g from h.symm)
      · exact dut_ne_ufet _ _
          (show "DUt_" ++ baseNameOf g = "UFEt_" ++ baseNameOf g from h.symm)
      · exact ex_ne_ufet _ _
          (show "EX_" ++ (baseNameOf g ++ "[fe]") = "UFEt_" ++ baseNameOf g from h.symm)
  show (addTransportReaction ("UFEt_" ++ baseNameOf g) sr g (baseNameOf g ++ "[fe]")
      (addExchangeReaction (baseNameOf g) "fe" sm
        (addTransportReaction ("DUt_" ++ baseNameOf g) sr (baseNameOf g ++ "[d]") g
          (addExchangeReaction (baseNameOf g) "d" sm acc)))).rxns = _
  rw [addTransport_fresh_eq _ sr _ _ _ hufetsnap hf4, e3, List.append_assoc]
  rfl

theorem dietFecal_fold_ids (sm sr : List String) (l : List String) :
    ∀ (acc : CModel) (i : String),
      i ∈ (l.foldl (dietFecalStep sm sr) acc).rxns.map Rxn.id →
      i ∈ acc.rxns.map Rxn.id ∨ ∃ g ∈ l, i ∈ famIds (baseNameOf g) := by
  induction l with
  | nil => intro acc i h; exact Or.inl h
  | cons g t ih =>
    intro acc i h
    rw [List.foldl_cons] at h
    rcases ih _ i h with h1 | h1
    · rcases dietFecalStep_ids sm sr acc g i h1 with h2 | h2
      · exact Or.inl h2
      · exact Or.inr ⟨g, by simp, h2⟩
    · obtain ⟨g', hg', hfam⟩ := h1
      exact Or.inr ⟨g', by simp [hg'], hfam⟩

theorem dietFecal_fold_preserve (sm sr : List String) (l : List String) :
    ∀ (acc : CModel) (r : Rxn), r ∈ acc.rxns →
      (∀ g ∈ l, r.id ∉ famIds (baseNameOf g)) →
      r ∈ (l.foldl (dietFecalStep sm sr) acc).rxns := by
  induction l with
  | nil => intro acc r hr _; exact hr
  | cons g t ih =>
    intro acc r hr hfam
    rw [List.foldl_cons]
    exact ih _ r (dietFecalStep_preserve sm sr acc g r hr (hfam g (by simp)))
      fun g' hg' => hfam g' (by simp [hg'])

/-! ### Claim C8 -/

/-- The model of the C8 counterexample: one IEX reaction whose reactant is the
general lumen metabolite `ac[u]`, and a stray diet metabolite `ac[d]` with no
`EX_ac[d]` reaction. -/
def cModelC8 : CModel :=
  { mets := [{ id := "ac[u]", compartment := "u" },
      { id := "A_ac[u]", compartment := "u" },
      { id := "ac[d]", compartment := "d" }],
    rxns := [{ id := "A_IEX_ac[u]tr", stoich := [("ac[u]", -1), ("A_ac[u]", 1)], lb := -1000, ub := 1000 }] }

/-- Counterexample to claim C8 as stated: `ac[u]` is a general lumen
metabolite (a reactant of an IEX reaction) and no reaction `EX_ac[d]` exists,
yet `add_diet_fecal_compartments` does not add one — the skip test of the
exchange helper (line 121) is existence of the metabolite `ac[d]`, not of the
reaction. -/
theorem c8_exchange_skip_counterexample :
    "ac[u]" ∈ generalMets (removeExchangeArtifacts cModelC8) ∧
    ((cModelC8.rxns.any fun r => r.id = "EX_ac[d]") = false) ∧
    (((addDietFecalCompartments cModelC8).rxns.any fun r => r.id = "EX_ac[d]") = false) ∧
    ((addDietFecalCompartments cModelC8).rxns.any fun r => r.id = "DUt_ac") = true := by
  refine ⟨?_, ?_, ?_, ?_⟩ <;> decide

/-- Claim C8 (amended): for every general lumen metabolite `base[u]` that is a
reactant of an IEX reaction, the diet/fecal builder adds `EX_base[d]` (bounds
`[-1000, 10000]`), `DUt_base : base[d] → base[u]` (bounds `[0, 10000]`),
`EX_base[fe]` (bounds `[-1000, 10000]`) and `UFEt_base : base[u] → base[fe]`
(bounds `[0, 10000]`) — where the skip test for the two exchange reactions is
the pre-existence of the metabolite `base[d]` resp. `base[fe]` (not of the
reaction), and the skip test for the two transports is the pre-existence of
the transport reaction id. The theorem states the fresh case: when none of
those pre-exist (and base names are distinct), all four reactions are in the
result with exactly the stated stoichiometry and bounds. -/
theorem c8_diet_fecal_amended (M : CModel) (g : String)
    (hg : g ∈ generalMets (removeExchangeArtifacts M))
    (hnd : ((generalMets (removeExchangeArtifacts M)).map baseNameOf).Nodup)
    (hdmet : baseNameOf g ++ "[d]" ∉ (removeExchangeArtifacts M).mets.map Met.id)
    (hfemet : baseNameOf g ++ "[fe]" ∉ (removeExchangeArtifacts M).mets.map Met.id)
    (hexd : "EX_" ++ (baseNameOf g ++ "[d]") ∉ (removeExchangeArtifacts M).rxns.map Rxn.id)
    (hdut : "DUt_" ++ baseNameOf g ∉ (removeExchangeArtifacts M).rxns.map Rxn.id)
    (hexfe : "EX_" ++ (baseNameOf g ++ "[fe]") ∉ (removeExchangeArtifacts M).rxns.map Rxn.id)
    (hufet : "UFEt_" ++ baseNameOf g ∉ (removeExchangeArtifacts M).rxns.map Rxn.id) :
    dietExchangeRxn (baseNameOf g) ∈ (addDietFecalCompartments M).rxns ∧
    dutRxn (baseNameOf g) g ∈ (addDietFecalCompartments M).rxns ∧
    fecalExchangeRxn (baseNameOf g) ∈ (addDietFecalCompartments M).rxns ∧
    ufetRxn (baseNameOf g) g ∈ (addDietFecalCompartments M).rxns := by
  obtain ⟨l1, l2, hsplit⟩ := List.append_of_mem hg
  have hfold : addDietFecalCompartments M =
      l2.foldl
        (dietFecalStep ((removeExchangeArtifacts M).mets.map Met.id)
          ((removeExchangeArtifacts M).rxns.map Rxn.id))
        (dietFecalStep ((removeExchangeArtifacts M).mets.map Met.id)
          ((removeExchangeArtifacts M).rxns.map Rxn.id)
          (l1.foldl
            (dietFecalStep ((removeExchangeArtifacts M).mets.map Met.id)
              ((removeExchangeArtifacts M).rxns.map Rxn.id))
            (removeExchangeArtifacts M)) g) := by
    have h0 : addDietFecalCompartments M =
        (generalMets (removeExchangeArtifacts M)).foldl
          (dietFecalStep ((removeExchangeArtifacts M).mets.map Met.id)
            ((removeExchangeArtifacts M).rxns.map Rxn.id))
          (removeExchangeArtifacts M) := rfl
    rw [h0, hsplit, List.foldl_append, List.foldl_cons]
  rw [hsplit, List.map_append, List.nodup_append] at hnd
  have hb1 : ∀ g' ∈ l1, baseNameOf g' ≠ baseNameOf g := by
    intro g' hg' hc
    have h1 : baseNameOf g' ∈ List.map baseNameOf l1 := List.mem_map_of_mem baseNameOf hg'
    have h2 : baseNameOf g' ∈ List.map baseNameOf (g :: l2) := by
      rw [hc, List.map_cons]
      exact List.mem_cons_self _ _
    exact hnd.2.2 h1 h2
  have hb2 : ∀ g' ∈ l2, baseNameOf g' ≠ baseNameOf g := by
    have hcons := hnd.2.1
    rw [List.map_cons] at hcons
    rw [List.nodup_cons] at hcons
    intro g' hg' hc
    exact hcons.1 (hc ▸ List.mem_map_of_mem baseNameOf hg')
  have hfreshA : ∀ t ∈ famIds (baseNameOf g),
      t ∉ (l1.foldl
        (dietFecalStep ((removeExchangeArtifacts M).mets.map Met.id)
          ((removeExchangeArtifacts M).rxns.map Rxn.id))
        (removeExchangeArtifacts M)).rxns.map Rxn.id := by
    intro t ht hc
    rcases dietFecal_fold_ids _ _ l1 _ t hc with h | h
    · simp only [famIds, List.mem_cons, List.not_mem_nil, or_false] at ht
      rcases ht with rfl | rfl | rfl | rfl
      exacts [hexd h, hdut h, hexfe h, hufet h]
    · obtain ⟨g', hg', hfam⟩ := h
      exact famIds_disjoint (hb1 g' hg').symm ht hfam
  have hstep := dietFecalStep_fresh_eq
    ((removeExchangeArtifacts M).mets.map Met.id)
    ((removeExchangeArtifacts M).rxns.map Rxn.id)
    (l1.foldl
      (dietFecalStep ((removeExchangeArtifacts M).mets.map Met.id)
        ((removeExchangeArtifacts M).rxns.map Rxn.id))
      (removeExchangeArtifacts M)) g
    hdmet hfemet hdut hufet
    (hfreshA _ (by simp [famIds])) (hfreshA _ (by simp [famIds]))
    (hfreshA _ (by simp [famIds])) (hfreshA _ (by simp [famIds]))
  have hmem4 : ∀ r ∈ [dietExchangeRxn (baseNameOf g), dutRxn (baseNameOf g) g,
      fecalExchangeRxn (baseNameOf g), ufetRxn (baseNameOf g) g],
      r ∈ (addDietFecalCompartments M).rxns := by
    intro r hr
    rw [hfold]
    refine dietFecal_fold_preserve _ _ l2 _ r ?_ ?_
    · rw [hstep]
      exact List.mem_append_right _ hr
    · intro g' hg' hcfam
      have hrid : r.id ∈ famIds (baseNameOf g) := by
        simp only [List.mem_cons, List.not_mem_nil, or_false] at hr
        rcases hr with rfl | rfl | rfl | rfl <;> simp [famIds, dietExchangeRxn,
          dutRxn, fecalExchangeRxn, ufetRxn]
      exact famIds_disjoint (hb2 g' hg').symm hrid hcfam
  exact ⟨hmem4 _ (by simp), hmem4 _ (by simp), hmem4 _ (by simp), hmem4 _ (by simp)⟩

/-- Witness for the amended C8: a fresh two-organism-free model with one IEX
reaction on the general lumen metabolite `ac[u]`. -/
theorem c8_diet_fecal_amended_witness :
    dietExchangeRxn (baseNameOf "ac[u]") ∈
      (addDietFecalCompartments
        { mets := [{ id := "ac[u]", compartment := "u" },
            { id := "A_ac[u]", compartment := "u" }],
          rxns := [{ id := "A_IEX_ac[u]tr", stoich := [("ac[u]", -1), ("A_ac[u]", 1)], lb := -1000, ub := 1000 }] }).rxns ∧
    dutRxn (baseNameOf "ac[u]") "ac[u]" ∈
      (addDietFecalCompartments
        { mets := [{ id := "ac[u]", compartment := "u" },
            { id := "A_ac[u]", compartment := "u" }],
          rxns := [{ id := "A_IEX_ac[u]tr", stoich := [("ac[u]", -1), ("A_ac[u]", 1)], lb := -1000, ub := 1000 }] }).rxns ∧
    fecalExchangeRxn (baseNameOf "ac[u]") ∈
      (addDietFecalCompartments
        { mets := [{ id := "ac[u]", compartment := "u" },
            { id := "A_ac[u]", compartment := "u" }],
          rxns := [{ id := "A_IEX_ac[u]tr", stoich := [("ac[u]", -1), ("A_ac[u]", 1)], lb := -1000, ub := 1000 }] }).rxns ∧
    ufetRxn (baseNameOf "ac[u]") "ac[u]" ∈
      (addDietFecalCompartments
        { mets := [{ id := "ac[u]", compartment := "u" },
            { id := "A_ac[u]", compartment := "u" }],
          rxns := [{ id := "A_IEX_ac[u]tr", stoich := [("ac[u]", -1), ("A_ac[u]", 1)], lb := -1000, ub := 1000 }] }).rxns :=
  c8_diet_fecal_amended
    { mets := [{ id := "ac[u]", compartment := "u" },
        { id := "A_ac[u]", compartment := "u" }],
      rxns := [{ id := "A_IEX_ac[u]tr", stoich := [("ac[u]", -1), ("A_ac[u]", 1)], lb := -1000, ub := 1000 }] }
    "ac[u]" (by decide) (by decide) (by decide) (by decide) (by decide) (by decide)
    (by decide) (by decide)

/-! ### Community GEM builder: `reformat_gem_for_community` -/

/-- Python `pat in rxn.reaction`: the cobra reaction string is the metabolite
ids joined by coefficients and arrows, none of which contain brackets, so a
bracketed pattern occurs in it exactly when it occurs in some metabolite id of
the reaction. -/
def rxnTouches (r : Rxn) (pat : String) : Bool :=
  r.stoich.any fun p => sContains p.1 pat

/-- Lines 207-213 of `community_gem_builder.py` (`tag_metabolite`): the new
metabolite id `{microbe}_{id with [comp] removed}[{comp}]`. -/
def tagMetaboliteId (m mid comp : String) : String :=
  m ++ ("_" ++ (pyReplace mid ("[" ++ (comp ++ "]")) "" ++ ("[" ++ (comp ++ "]"))))

/-- Lines 254-256 of `community_gem_builder.py`: the `[c]`/`[p]` tagging
branch of the metabolite loop, returning the new id and compartment when the
guard fires. -/
def metRenameCP (m mid : String) : Option (String × String) :=
  if (sContains mid "[c]" || sContains mid "[p]") && !(sContains mid m) then
    some (tagMetaboliteId m mid (if sContains mid "[c]" then "c" else "p"),
      if sContains mid "[c]" then "c" else "p")
  else none

/-- Lines 257-260 of `community_gem_builder.py`: the `[e]` branch — relocate
to the organism's private lumen pool `{microbe}_{base}[u]`. -/
def metRenameE (m mid : String) : Option (String × String) :=
  if sContains mid "[e]" && !(sContains mid m) then
    some (m ++ ("_" ++ (pyReplace mid "[e]" "" ++ "[u]")), "u")
  else none

/-- The metabolite loop body of step 2 (lines 253-260): `[c]`/`[p]` branch
first, `elif` the `[e]` branch. -/
def metRenameStep2 (m mid : String) : Option (String × String) :=
  match metRenameCP m mid with
  | some r => some r
  | none => metRenameE m mid

/-- Renaming one metabolite id inside one reaction's stoichiometry (cobra
metabolite objects are shared, so an id change shows up in every reaction). -/
def renameStoichKey (old new : String) (r : Rxn) : Rxn :=
  { r with stoich := r.stoich.map fun p => if p.1 = old then (new, p.2) else p }

/-- A metabolite id change propagated through the whole model. -/
def renameMetEverywhere (old new comp : String) (M : CModel) : CModel :=
  { mets := M.mets.map fun x =>
      if x.id = old then { id := new, compartment := comp } else x,
    rxns := M.rxns.map (renameStoichKey old new) }

/-- The inner metabolite loop of step 2 over one reaction's captured
metabolite ids, threading the model, the current reaction and the still
unprocessed reactions (all of which see each id change). -/
def applyKeyRenames (m : String) : List String → CModel × Rxn × List Rxn →
    CModel × Rxn × List Rxn
  | [], st => st
  | k :: ks, st =>
    match metRenameStep2 m k with
    | some (new, comp) =>
      applyKeyRenames m ks
        (renameMetEverywhere k new comp st.1, renameStoichKey k new st.2.1,
          st.2.2.map (renameStoichKey k new))
    | none => applyKeyRenames m ks st

/-- Lines 248-260 of `community_gem_builder.py`, one reaction: when its
reaction string touches `[e]` or `[c]`, prefix the reaction id with the
microbe name and run the metabolite loop over its metabolite ids. -/
def step2Process (m : String) (M : CModel) (r : Rxn) (rest : List Rxn) :
    CModel × List Rxn :=
  if rxnTouches r "[e]" || rxnTouches r "[c]" then
    let st := applyKeyRenames m (r.stoich.map Prod.fst)
      (M, { r with id := m ++ ("_" ++ r.id) }, rest)
    ({ st.1 with rxns := st.1.rxns ++ [st.2.1] }, st.2.2)
  else ({ M with rxns := M.rxns ++ [r] }, rest)

/-- The reaction loop of step 2, fuelled by the number of still unprocessed
reactions (each call consumes exactly one). -/
def step2Aux (m : String) : Nat → CModel → List Rxn → CModel
  | _, M, [] => M
  | 0, M, todo => { M with rxns := M.rxns ++ todo }
  | f + 1, M, r :: rest =>
    let p := step2Process m M r rest
    step2Aux m f p.1 p.2

/-- Step 2 of `reformat_gem_for_community` (lines 247-260). -/
def step2 (m : String) (M : CModel) : CModel :=
  step2Aux m M.rxns.length { M with rxns := [] } M.rxns

/-- Lines 243-245 of `community_gem_builder.py` (step 1): remove every
reaction whose id contains `EX_` unless it contains `biomass`. -/
def step1 (M : CModel) : CModel :=
  { M with rxns := M.rxns.filter fun r =>
      !(sContains r.id "EX_" && !(sContains r.id "biomass")) }

/-- Cobra's `Model.add_reactions`, which ignores a reaction whose id is
already in the model. -/
def addRxnIgnoreDup (M : CModel) (r : Rxn) : CModel :=
  if M.rxns.any fun x => x.id = r.id then M else { M with rxns := M.rxns ++ [r] }

/-- Step 3 of `reformat_gem_for_community`
(`_create_inter_microbe_exchange`, lines 270-301): for every metabolite with
`[u]` in the id and the microbe name in the id, ensure the general metabolite
(the id with every `{microbe}_` removed) exists and add the IEX reaction
`{microbe}_IEX_{general}tr : general ⇌ private` with bounds `(-1000, 1000)`. -/
def step3Body (m : String) (acc : CModel) (met : Met) : CModel :=
  let generalId := pyReplace met.id (m ++ "_") ""
  let acc1 := if acc.mets.any fun x => x.id = generalId then acc
    else { acc with mets := acc.mets ++ [{ id := generalId, compartment := "u" }] }
  addRxnIgnoreDup acc1
    { id := m ++ ("_IEX_" ++ (generalId ++ "tr")),
      stoich := [(generalId, -1), (met.id, 1)], lb := -1000, ub := 1000 }

def step3 (m : String) (M : CModel) : CModel :=
  (M.mets.filter fun x => sContains x.id "[u]" && sContains x.id m).foldl (step3Body m) M

/-- Lines 306-308 of `community_gem_builder.py`: prefix a reaction id that
does not already start with the microbe name. -/
def step4Retag (m : String) (r : Rxn) : Rxn :=
  if pyStartsWith r.id m then r else { r with id := m ++ ("_" ++ r.id) }

/-- Step 4 of `reformat_gem_for_community` (`_finalize_microbe_tagging`,
lines 303-316): prefix every reaction id that does not start with the microbe
name, then tag every remaining `[c]`/`[p]` metabolite whose id does not
contain the microbe name. -/
def step4 (m : String) (M : CModel) : CModel :=
  let M1 : CModel := { M with rxns := M.rxns.map (step4Retag m) }
  (M1.mets.map Met.id).foldl
    (fun acc mid =>
      match metRenameCP m mid with
      | some nc => renameMetEverywhere mid nc.1 nc.2 acc
      | none => acc)
    M1

/-- The whole of `reformat_gem_for_community` (lines 215-268 of
`community_gem_builder.py`), taking the already-extracted short microbe name
(the basename/splitext of the model path is file-system handling, out of
scope). -/
def reformatGemForCommunity (M : CModel) (m : String) : CModel :=
  step4 m (step3 m (step2 m (step1 M)))

/-- The model of the C3 counterexample: one intracellular and one
extracellular metabolite joined by one reaction. -/
def cModelC3 : CModel :=
  { mets := [{ id := "a[c]", compartment := "c" }, { id := "b[e]", compartment := "e" }],
    rxns := [{ id := "r1", stoich := [("a[c]", -1), ("b[e]", 1)], lb := 0, ub := 1000 }] }

/-! ### Claim C3: invariants of an already-tagged network -/

/-- Every `[c]`/`[p]` metabolite id carries the microbe name
(established by the finalization pass). -/
def MetsP1 (m : String) (mets : List Met) : Prop :=
  ∀ met ∈ mets, (sContains met.id "[c]" = true ∨ sContains met.id "[p]" = true) →
    sContains met.id m = true

/-- No reaction references an `[e]` metabolite id lacking the microbe name
(established by the step-2 relocation of `[e]` metabolites). -/
def KeysOK (m : String) (rs : List Rxn) : Prop :=
  ∀ r ∈ rs, ∀ p ∈ r.stoich, sContains p.1 "[e]" = true → sContains p.1 m = true

/-- Every tagged lumen metabolite has its stripped general counterpart
(established by the inter-exchange pass). -/
def LumenOK (m : String) (mets : List Met) : Prop :=
  ∀ met ∈ mets, sContains met.id "[u]" = true → sContains met.id m = true →
    ∃ met2 ∈ mets, met2.id = pyReplace met.id (m ++ "_") ""

theorem sContains_append_self (m rest : String) : sContains (m ++ rest) m = true := by
  rw [sContains_iff, String.data_append]
  exact ⟨[], rest.data, rfl⟩

theorem tagMetaboliteId_contains (m mid comp : String) :
    sContains (tagMetaboliteId m mid comp) m = true :=
  sContains_append_self m _

theorem metRenameStep2_new_contains (m k new comp : String)
    (h : metRenameStep2 m k = some (new, comp)) : sContains new m = true := by
  rw [metRenameStep2, metRenameCP, metRenameE] at h
  by_cases h1 : ((sContains k "[c]" || sContains k "[p]") && !(sContains k m)) = true
  · rw [if_pos h1] at h
    have h2 : some (tagMetaboliteId m k (if sContains k "[c]" then "c" else "p"),
        (if sContains k "[c]" then "c" else "p")) = some (new, comp) := h
    rw [Option.some.injEq] at h2
    have h3 : tagMetaboliteId m k (if sContains k "[c]" then "c" else "p") = new :=
      congrArg Prod.fst h2
    rw [← h3]
    exact tagMetaboliteId_contains m k _
  · rw [if_neg h1] at h
    by_cases h2 : (sContains k "[e]" && !(sContains k m)) = true
    · rw [if_pos h2] at h
      have h3 : some (m ++ ("_" ++ (pyReplace k "[e]" "" ++ "[u]")), "u") =
          some (new, comp) := h
      rw [Option.some.injEq] at h3
      have h4 : m ++ ("_" ++ (pyReplace k "[e]" "" ++ "[u]")) = new :=
        congrArg Prod.fst h3
      rw [← h4]
      exact sContains_append_self m _
    · rw [if_neg h2] at h
      cases h

theorem metRenameCP_none_of_p1 (m mid : String)
    (h : (sContains mid "[c]" = true ∨ sContains mid "[p]" = true) →
      sContains mid m = true) : metRenameCP m mid = none := by
  rw [metRenameCP]
  rw [if_neg]
  intro hc
  rw [Bool.and_eq_true, Bool.or_eq_true, Bool.not_eq_true'] at hc
  rw [h hc.1] at hc
  cases hc.2

theorem metRenameStep2_none (m k : String)
    (hcp : (sContains k "[c]" = true ∨ sContains k "[p]" = true) →
      sContains k m = true)
    (he : sContains k "[e]" = true → sContains k m = true) :
    metRenameStep2 m k = none := by
  rw [metRenameStep2, metRenameCP_none_of_p1 m k hcp, metRenameE]
  rw [if_neg]
  intro hc
  rw [Bool.and_eq_true, Bool.not_eq_true'] at hc
  rw [he hc.1] at hc
  cases hc.2

theorem mets_map_id_of_ne {mets : List Met} {k new comp : String}
    (h : ∀ x ∈ mets, x.id ≠ k) :
    (mets.map fun x => if x.id = k then { id := new, compartment := comp } else x) =
      mets := by
  have h2 : (mets.map fun x =>
      if x.id = k then ({ id := new, compartment := comp } : Met) else x) =
      mets.map id := by
    refine List.map_congr_left fun x hx => ?_
    rw [if_neg (h x hx)]
    rfl
  rw [h2, List.map_id]

theorem renameStoichKey_keys {r : Rxn} {old new : String} {P : String → Prop}
    (hr : ∀ p ∈ r.stoich, P p.1) (hnew : P new) :
    ∀ p ∈ (renameStoichKey old new r).stoich, P p.1 := by
  intro p hp
  rw [renameStoichKey] at hp
  simp only [List.mem_map] at hp
  obtain ⟨q, hq, rfl⟩ := hp
  split
  · exact hnew
  · exact hr q hq

/-- The key property tracked through step 2: an `[e]` key carries the microbe
name. -/
def KeyP (m : String) (k : String) : Prop :=
  sContains k "[e]" = true → sContains k m = true

theorem applyKeyRenames_spec (m : String) (ks : List String) :
    ∀ st : CModel × Rxn × List Rxn,
      MetsP1 m st.1.mets →
      (∀ k ∈ ks, KeyP m k) →
      KeysOK m st.1.rxns →
      (∀ p ∈ st.2.1.stoich, KeyP m p.1) →
      KeysOK m st.2.2 →
      (applyKeyRenames m ks st).1.mets = st.1.mets ∧
      MetsP1 m (applyKeyRenames m ks st).1.mets ∧
      KeysOK m (applyKeyRenames m ks st).1.rxns ∧
      (∀ p ∈ (applyKeyRenames m ks st).2.1.stoich, KeyP m p.1) ∧
      KeysOK m (applyKeyRenames m ks st).2.2 := by
  induction ks with
  | nil =>
    intro st h1 _ h3 h4 h5
    exact ⟨rfl, h1, h3, h4, h5⟩
  | cons k ks ih =>
    intro st h1 hks h3 h4 h5
    rw [applyKeyRenames]
    cases hstep : metRenameStep2 m k with
    | none => exact ih st h1 (fun q hq => hks q (List.mem_cons_of_mem _ hq)) h3 h4 h5
    | some nc =>
      obtain ⟨new, comp⟩ := nc
      have hnewm : sContains new m = true := metRenameStep2_new_contains m k new comp hstep
      have hguard : (sContains k "[c]" = true ∨ sContains k "[p]" = true) ∧
          sContains k m = false := by
        by_cases hg : ((sContains k "[c]" || sContains k "[p]") && !(sContains k m)) = true
        · rw [Bool.and_eq_true, Bool.or_eq_true, Bool.not_eq_true'] at hg
          exact hg
        · exfalso
          have hcpn : metRenameCP m k = none := by rw [metRenameCP, if_neg hg]
          rw [metRenameStep2, hcpn, metRenameE] at hstep
          by_cases h2 : (sContains k "[e]" && !(sContains k m)) = true
          · rw [Bool.and_eq_true, Bool.not_eq_true'] at h2
            rw [hks k (List.mem_cons_self _ _) h2.1] at h2
            cases h2.2
          · rw [if_neg h2] at hstep
            cases hstep
      have hknotmet : ∀ x ∈ st.1.mets, x.id ≠ k := by
        intro x hx hc
        have := h1 x hx (by rw [hc]; exact hguard.1)
        rw [← hc, this] at hguard
        cases hguard.2
      have hmets : (renameMetEverywhere k new comp st.1).mets = st.1.mets :=
        mets_map_id_of_ne hknotmet
      have hKeyPnew : KeyP m new := fun _ => hnewm
      have hres := ih
        (renameMetEverywhere k new comp st.1, renameStoichKey k new st.2.1,
          st.2.2.map (renameStoichKey k new))
        (by rw [show (renameMetEverywhere k new comp st.1, renameStoichKey k new st.2.1,
            st.2.2.map (renameStoichKey k new)).1.mets = st.1.mets from hmets]; exact h1)
        (fun q hq => hks q (List.mem_cons_of_mem _ hq))
        (by
          intro r hr p hp
          rw [show (renameMetEverywhere k new comp st.1, renameStoichKey k new st.2.1,
            st.2.2.map (renameStoichKey k new)).1.rxns =
              st.1.rxns.map (renameStoichKey k new) from rfl] at hr
          obtain ⟨r0, hr0, rfl⟩ := List.mem_map.mp hr
          exact renameStoichKey_keys (fun q hq he => h3 r0 hr0 q hq he) hKeyPnew p hp)
        (by
          intro p hp
          exact renameStoichKey_keys (fun q hq => h4 q hq) hKeyPnew p hp)
        (by
          intro r hr p hp
          obtain ⟨r0, hr0, rfl⟩ := List.mem_map.mp hr
          exact renameStoichKey_keys (fun q hq he => h5 r0 hr0 q hq he) hKeyPnew p hp)
      refine ⟨?_, hres.2.1, hres.2.2.1, hres.2.2.2.1, hres.2.2.2.2⟩
      rw [hres.1]
      exact hmets

theorem step2Process_spec (m : String) (M : CModel) (r : Rxn) (rest : List Rxn)
    (h1 : MetsP1 m M.mets) (h3 : KeysOK m M.rxns)
    (h4 : ∀ p ∈ r.stoich, KeyP m p.1) (h5 : KeysOK m rest) :
    (step2Process m M r rest).1.mets = M.mets ∧
    MetsP1 m (step2Process m M r rest).1.mets ∧
    KeysOK m (step2Process m M r rest).1.rxns ∧
    KeysOK m (step2Process m M r rest).2 := by
  dsimp only [step2Process]
  split
  · have hks : ∀ k ∈ r.stoich.map Prod.fst, KeyP m k := by
      intro k hk
      obtain ⟨p, hp, rfl⟩ := List.mem_map.mp hk
      exact h4 p hp
    have hres := applyKeyRenames_spec m (r.stoich.map Prod.fst)
      (M, { r with id := m ++ ("_" ++ r.id) }, rest) h1 hks h3 h4 h5
    refine ⟨hres.1, ?_, ?_, hres.2.2.2.2⟩
    · show MetsP1 m (applyKeyRenames m (r.stoich.map Prod.fst)
        (M, { r with id := m ++ ("_" ++ r.id) }, rest)).1.mets
      exact hres.2.1
    · intro rr hrr p hp
      rcases List.mem_append.mp hrr with h | h
      · exact hres.2.2.1 rr h p hp
      · rw [List.mem_singleton] at h
        subst h
        exact hres.2.2.2.1 p hp
  · refine ⟨rfl, h1, ?_, h5⟩
    intro rr hrr p hp
    rcases List.mem_append.mp hrr with h | h
    · exact h3 rr h p hp
    · rw [List.mem_singleton] at h
      subst h
      exact h4 p hp

theorem step2Aux_mets (m : String) : ∀ (f : Nat) (M : CModel) (todo : List Rxn),
    MetsP1 m M.mets → KeysOK m M.rxns → KeysOK m todo →
    (step2Aux m f M todo).mets = M.mets := by
  intro f
  induction f with
  | zero => intro M todo _ _ _; cases todo <;> rfl
  | succ f ih =>
    intro M todo h1 h3 h5
    cases todo with
    | nil => rfl
    | cons r rest =>
      show (step2Aux m f (step2Process m M r rest).1 (step2Process m M r rest).2).mets =
        M.mets
      have hsp := step2Process_spec m M r rest h1 h3
        (fun p hp => h5 r (List.mem_cons_self _ _) p hp)
        (fun rr hrr => h5 rr (List.mem_cons_of_mem _ hrr))
      rw [ih _ _ hsp.2.1 hsp.2.2.1 hsp.2.2.2]
      exact hsp.1

theorem step2_mets (m : String) (M : CModel) (h1 : MetsP1 m M.mets)
    (h3 : KeysOK m M.rxns) : (step2 m M).mets = M.mets := by
  show (step2Aux m M.rxns.length { M with rxns := [] } M.rxns).mets = M.mets
  exact step2Aux_mets m _ _ _ h1 (fun r hr => absurd hr (List.not_mem_nil r)) h3

theorem step3Body_mets (m : String) (acc : CModel) (met : Met)
    (h : ∃ met2 ∈ acc.mets, met2.id = pyReplace met.id (m ++ "_") "") :
    (step3Body m acc met).mets = acc.mets := by
  dsimp only [step3Body]
  have hany : (acc.mets.any fun x => x.id = pyReplace met.id (m ++ "_") "") = true := by
    rw [List.any_eq_true]
    obtain ⟨met2, hm2, he⟩ := h
    exact ⟨met2, hm2, by rw [decide_eq_true_eq]; exact he⟩
  rw [if_pos hany]
  dsimp only [addRxnIgnoreDup]
  split <;> rfl

theorem step3_mets (m : String) (M : CModel) (hL : LumenOK m M.mets) :
    (step3 m M).mets = M.mets := by
  show ((M.mets.filter fun x => sContains x.id "[u]" && sContains x.id m).foldl
    (step3Body m) M).mets = M.mets
  have main : ∀ (l : List Met) (acc : CModel), acc.mets = M.mets →
      (∀ met ∈ l, ∃ met2 ∈ M.mets, met2.id = pyReplace met.id (m ++ "_") "") →
      (l.foldl (step3Body m) acc).mets = M.mets := by
    intro l
    induction l with
    | nil => intro acc ha _; exact ha
    | cons met t ih =>
      intro acc ha hl
      rw [List.foldl_cons]
      refine ih _ ?_ fun q hq => hl q (List.mem_cons_of_mem _ hq)
      rw [step3Body_mets m acc met (by rw [ha]; exact hl met (List.mem_cons_self _ _))]
      exact ha
  refine main _ M rfl ?_
  intro met hmet
  rw [List.mem_filter] at hmet
  have hb := hmet.2
  rw [Bool.and_eq_true] at hb
  exact hL met hmet.1 hb.1 hb.2

theorem step4_mets (m : String) (M : CModel) (h1 : MetsP1 m M.mets) :
    (step4 m M).mets = M.mets := by
  show ((({ M with rxns := M.rxns.map (step4Retag m) } : CModel).mets.map Met.id).foldl
    (fun acc mid =>
      match metRenameCP m mid with
      | some nc => renameMetEverywhere mid nc.1 nc.2 acc
      | none => acc)
    { M with rxns := M.rxns.map (step4Retag m) }).mets = M.mets
  have hnone : ∀ mid ∈ ({ M with rxns := M.rxns.map (step4Retag m) } : CModel).mets.map
      Met.id, metRenameCP m mid = none := by
    intro mid hmid
    obtain ⟨met, hmet, rfl⟩ := List.mem_map.mp hmid
    exact metRenameCP_none_of_p1 m met.id (h1 met hmet)
  have main : ∀ (l : List String) (acc : CModel), (∀ mid ∈ l, metRenameCP m mid = none) →
      l.foldl
        (fun acc mid =>
          match metRenameCP m mid with
          | some nc => renameMetEverywhere mid nc.1 nc.2 acc
          | none => acc)
        acc = acc := by
    intro l
    induction l with
    | nil => intro acc _; rfl
    | cons mid t ih =>
      intro acc hl
      rw [List.foldl_cons, hl mid (List.mem_cons_self _ _)]
      exact ih acc fun q hq => hl q (List.mem_cons_of_mem _ hq)
  rw [main _ _ hnone]

/-- Core of the amended C3: on a network satisfying the three invariants that
tagging itself establishes, a second application of
`reformat_gem_for_community` changes the metabolite list not at all. -/
theorem reformat_mets_of_invariants (m : String) (M1 : CModel)
    (h1 : MetsP1 m M1.mets) (h2 : KeysOK m M1.rxns) (h3 : LumenOK m M1.mets) :
    (reformatGemForCommunity M1 m).mets = M1.mets := by
  have e1 : (step1 M1).mets = M1.mets := rfl
  have k1 : KeysOK m (step1 M1).rxns := fun r hr => h2 r (List.mem_of_mem_filter hr)
  have e2 : (step2 m (step1 M1)).mets = M1.mets := step2_mets m (step1 M1) h1 k1
  have e3 : (step3 m (step2 m (step1 M1))).mets = M1.mets := by
    have hL : LumenOK m (step2 m (step1 M1)).mets := by
      rw [e2]
      exact h3
    rw [step3_mets m _ hL]
    exact e2
  show (step4 m (step3 m (step2 m (step1 M1)))).mets = M1.mets
  have h1s : MetsP1 m (step3 m (step2 m (step1 M1))).mets := by
    rw [e3]
    exact h1
  rw [step4_mets m _ h1s]
  exact e3

/-- C3: counterexample. Tagging is not idempotent on reaction ids: on the
two-metabolite model the first application of `reformat_gem_for_community`
yields the reaction ids `M_r1` and `M_IEX_b[u]tr`, and the second application
re-prefixes the first of them to `M_M_r1` (the id update at line 251 fires
again because the reaction string still contains `[c]`, and it carries no
already-tagged guard). -/
theorem c3_tagging_counterexample :
    (reformatGemForCommunity (reformatGemForCommunity cModelC3 "M") "M").rxns.map
        Rxn.id ≠
      (reformatGemForCommunity cModelC3 "M").rxns.map Rxn.id := by
  decide

/-- C3 (amended): on a tagged network — one where every `[c]`/`[p]`
metabolite id carries the microbe name, every `[e]` stoichiometry key carries
it, and every microbe-tagged lumen metabolite has its general counterpart
present, which is the shape `reformat_gem_for_community` itself leaves
behind — a second application with the same name changes no metabolite id.
Reaction ids are not preserved (the prefixing at line 251 is unguarded); see
the counterexample. -/
theorem c3_tagging_amended (M0 : CModel) (m : String)
    (h1 : MetsP1 m (reformatGemForCommunity M0 m).mets)
    (h2 : KeysOK m (reformatGemForCommunity M0 m).rxns)
    (h3 : LumenOK m (reformatGemForCommunity M0 m).mets) :
    (reformatGemForCommunity (reformatGemForCommunity M0 m) m).mets =
      (reformatGemForCommunity M0 m).mets :=
  reformat_mets_of_invariants m (reformatGemForCommunity M0 m) h1 h2 h3

instance (m : String) (mets : List Met) : Decidable (MetsP1 m mets) := by
  unfold MetsP1
  infer_instance

instance (m : String) (rs : List Rxn) : Decidable (KeysOK m rs) := by
  unfold KeysOK
  infer_instance

instance (m : String) (mets : List Met) : Decidable (LumenOK m mets) := by
  unfold LumenOK
  infer_instance

/-- Witness for the amended C3: the concrete two-metabolite model, whose
tagged form satisfies all three hypotheses by computation. -/
theorem c3_tagging_amended_witness :
    (reformatGemForCommunity (reformatGemForCommunity cModelC3 "M") "M").mets =
      (reformatGemForCommunity cModelC3 "M").mets :=
  c3_tagging_amended cModelC3 "M" (by decide) (by decide) (by decide)

end Migemox
